import Mathlib

/-!
Verification of the aria process-supervision and streaming-protocol engine.

This file gives a shallow embedding of the Go source of
`github.com/codegangsta/aria` (the `internal/claude` package, the permission
bridge in `cmd/aria/main.go`, and the session persistence layer) and proves
or refutes the specification claims about it.

The central piece is `ClaudeProcess.ReadResponses` (internal/claude/process.go,
newest revision): a loop that scans line-delimited JSON events from the
subprocess and drives a set of callbacks.  We embed each parsed JSON line as a
`Line` record carrying exactly the fields the Go code probes through its
several `json.Unmarshal` targets (`Event`, `ToolResultEvent`, `InitEvent`,
`UserEvent`, `ResultEvent`, `InputRequestEvent`), and model a `ReadResponses`
call as a function from the list of parsed lines to the list of callback
invocations (the trace) plus a final outcome.  Lines that fail to parse as
JSON are skipped by the Go loop and therefore do not appear in the input list.

Go `map[string]bool` iteration order is unspecified; `pendingTools` is
modelled as an insertion-ordered duplicate-free list, which is one
determinization of the map.  None of the proved statements depends on the
iteration order.
-/

namespace Aria

/-- JSON values, the model of Go `interface{}` results of `encoding/json`
decoding (used for `tool_use` input maps). -/
inductive JVal where
  | null : JVal
  | bool (b : Bool) : JVal
  | num (n : Int) : JVal
  | str (s : String) : JVal
  | arr (xs : List JVal) : JVal
  | obj (fields : List (String × JVal)) : JVal
deriving BEq, Repr

/-- `Todo` from internal/claude/process.go: one todo item of a `TodoWrite`
tool input. -/
structure Todo where
  content : String := ""
  status : String := ""
  activeForm : String := ""
deriving DecidableEq, Repr

/-- One JSON content block of an assistant or user event.  The Go code decodes
the same JSON array through two structs (`ContentBlock` with type/text/id/
name/input for assistant events, `UserEventContent` with type/tool_use_id/
content/is_error for user events); since `encoding/json` simply ignores the
fields a struct does not declare, a single record carrying the union of the
fields, each defaulting to its Go zero value, models both decodings. -/
structure ContentBlock where
  type : String := ""
  text : String := ""
  id : String := ""
  name : String := ""
  input : List (String × JVal) := []
  toolUseID : String := ""
  content : String := ""
  isError : Bool := false

/-- One parsed JSON line of the subprocess output stream, carrying exactly the
fields that `ReadResponses` probes: the top-level `type`/`subtype`, the
top-level `tool_use_id`/`is_error` (target `ToolResultEvent`, also
`InputRequestEvent`), the init payload (`session_id`, `slash_commands`), the
`message.content` blocks, the top-level `tool_use_result` of user events and
the `permission_denials` list of result events.  Absent JSON fields decode to
the Go zero values, which are the defaults here. -/
structure Line where
  type : String := ""
  subtype : String := ""
  toolUseID : String := ""
  isError : Bool := false
  sessionID : String := ""
  slashCommands : List String := []
  content : List ContentBlock := []
  toolUseResult : String := ""
  permissionDenials : List String := []

/-- A callback invocation: one element of the observable trace of a
`ReadResponses` call, one constructor per `ResponseCallbacks` field. -/
inductive CB where
  | message (text : String) (isFinal : Bool) : CB
  | toolUse (id : String) (name : String) (input : List (String × JVal)) : CB
  | toolResult (toolID : String) (isError : Bool) : CB
  | inputRequest (toolID : String) : CB
  | todoUpdate (todos : List Todo) : CB
  | toolError (toolName : String) (errorMsg : String) : CB
  | permissionDenial (denials : List String) : CB

/-- Process-level fields of `ClaudeProcess` touched by `ReadResponses`:
`slashCommands` (nil until the first init event, modelled as `Option`) and
`sessionID`. -/
structure PState where
  slashCommands : Option (List String) := none
  sessionID : String := ""

/-- The local state of one `ReadResponses` call: the buffered last message
(`lastMessage`/`hasMessage`), the pending tool set, and the process fields. -/
structure RState where
  lastMessage : String := ""
  hasMessage : Bool := false
  pendingTools : List String := []
  proc : PState := {}

/-- `flushBuffer`: emit the buffered message as non-final, if any. -/
def flushBuffer (s : RState) : List CB × RState :=
  if s.hasMessage then
    ([CB.message s.lastMessage false], { s with hasMessage := false, lastMessage := "" })
  else ([], s)

/-- `completeTool`: complete one specific pending tool (success or failure);
a no-op when the tool is not pending. -/
def completeTool (toolID : String) (isErr : Bool) (s : RState) : List CB × RState :=
  if toolID ∈ s.pendingTools then
    ([CB.toolResult toolID isErr], { s with pendingTools := s.pendingTools.erase toolID })
  else ([], s)

/-- `completeAllPending`: complete every pending tool as success and reset the
pending set. -/
def completeAllPending (s : RState) : List CB × RState :=
  (s.pendingTools.map (fun id => CB.toolResult id false), { s with pendingTools := [] })

/-- `pendingTools[id] = true` on the list model of the Go map. -/
def insertPending (id : String) (l : List String) : List String :=
  if id ∈ l then l else l ++ [id]

/-- Decoding of one entry of a `TodoWrite` `todos` array: Go keeps only
entries that are JSON objects and takes each field only when it is a string. -/
def decodeTodoEntry (v : JVal) : Option Todo :=
  match v with
  | JVal.obj fields =>
      some
        { content :=
            match fields.lookup "content" with
            | some (JVal.str c) => c
            | _ => ""
          status :=
            match fields.lookup "status" with
            | some (JVal.str c) => c
            | _ => ""
          activeForm :=
            match fields.lookup "activeForm" with
            | some (JVal.str c) => c
            | _ => "" }
  | _ => none

/-- The `TodoWrite` special case: when the tool input has a `todos` key whose
value is an array, emit one todo-update callback with the decoded entries. -/
def todoCallbacks (c : ContentBlock) : List CB :=
  if c.name = "TodoWrite" then
    match c.input.lookup "todos" with
    | some (JVal.arr l) => [CB.todoUpdate (l.filterMap decodeTodoEntry)]
    | _ => []
  else []

/-- The text-block pass of an assistant event: for each text block, complete
all pending tools, flush the previously buffered message, then buffer this
text (it might be final). -/
def procTexts : List String → RState → List CB × RState
  | [], s => ([], s)
  | t :: ts, s =>
      let r1 := completeAllPending s
      let r2 := flushBuffer r1.2
      let s3 := { r2.2 with lastMessage := t, hasMessage := true }
      let r4 := procTexts ts s3
      (r1.1 ++ r2.1 ++ r4.1, r4.2)

/-- The tool-use pass of an assistant event: for each tool_use block, complete
all pending tools, flush buffered text, record the new pending tool, handle
`TodoWrite`, and emit the tool-use callback. -/
def procTools : List ContentBlock → RState → List CB × RState
  | [], s => ([], s)
  | c :: cs, s =>
      let r1 := completeAllPending s
      let r2 := flushBuffer r1.2
      let s3 := { r2.2 with pendingTools := insertPending c.id r2.2.pendingTools }
      let r4 := procTools cs s3
      (r1.1 ++ r2.1 ++ todoCallbacks c ++ [CB.toolUse c.id c.name c.input] ++ r4.1, r4.2)

/-- The user-event pass: every `tool_result` block whose error flag is set
completes the matching pending tool as a failure and, when an error message is
available (the block content, else the event-level `tool_use_result`), emits a
tool-error callback.  Note the Go code passes `content.ToolUseID` as the first
argument of `OnToolError`. -/
def procUserContents : List ContentBlock → String → RState → List CB × RState
  | [], _, s => ([], s)
  | c :: cs, topErr, s =>
      if c.type = "tool_result" ∧ c.isError then
        let r1 := completeTool c.toolUseID true s
        let errorMsg := if c.content = "" then topErr else c.content
        let o2 := if errorMsg = "" then [] else [CB.toolError c.toolUseID errorMsg]
        let r3 := procUserContents cs topErr r1.2
        (r1.1 ++ o2 ++ r3.1, r3.2)
      else procUserContents cs topErr s

/-- Result of processing a single line: either continue scanning or stop
(terminal event). -/
inductive StepRes where
  | next (out : List CB) (s : RState) : StepRes
  | stopCompleted (out : List CB) (s : RState) : StepRes
  | stopSuspended (out : List CB) (s : RState) : StepRes

/-- The generic tool-result check that runs on every parsed line: any line
with a non-empty top-level `tool_use_id` completes that tool with the line's
`is_error` flag.  (An `input_request` line has a top-level `tool_use_id`, so
this check fires on it too, before the `input_request` branch.) -/
def genericToolResultCheck (l : Line) (s : RState) : List CB × RState :=
  if l.toolUseID = "" then ([], s) else completeTool l.toolUseID l.isError s

/-- The init-event capture: on the first `system`/`init` line (while the
process-level `slashCommands` is still nil), record the advertised commands
and the subprocess-assigned session identifier. -/
def initCapture (l : Line) (s : RState) : RState :=
  if l.type = "system" ∧ s.proc.slashCommands = none ∧ l.subtype = "init" then
    { s with proc := { slashCommands := some l.slashCommands, sessionID := l.sessionID } }
  else s

/-- The text blocks the assistant pass collects from a line (`content.Type ==
"text" && content.Text != ""`). -/
def assistantTexts (l : Line) : List String :=
  (l.content.filter (fun c => c.type = "text" ∧ c.text ≠ "")).map (fun c => c.text)

/-- The tool_use blocks the assistant pass collects from a line
(`content.Type == "tool_use" && content.Name != ""`). -/
def assistantTools (l : Line) : List ContentBlock :=
  l.content.filter (fun c => c.type = "tool_use" ∧ c.name ≠ "")

/-- The user-event branch of the loop body (`if event.Type == "user"`). -/
def userPass (l : Line) (s : RState) : List CB × RState :=
  if l.type = "user" then procUserContents l.content l.toolUseResult s else ([], s)

/-- The assistant-event branch of the loop body (`if event.Type ==
"assistant"`): all text blocks are processed before all tool_use blocks. -/
def assistantPass (l : Line) (s : RState) : List CB × RState :=
  if l.type = "assistant" then
    let rt := procTexts (assistantTexts l) s
    let ru := procTools (assistantTools l) rt.2
    (rt.1 ++ ru.1, ru.2)
  else ([], s)

/-- The non-terminal part of the scan-loop body, in the source's order:
generic tool-result check, init capture, user tool-error pass, assistant pass. -/
def stepBody (l : Line) (s : RState) : List CB × RState :=
  let r1 := genericToolResultCheck l s
  let r3 := userPass l (initCapture l r1.2)
  let r4 := assistantPass l r3.2
  (r1.1 ++ r3.1 ++ r4.1, r4.2)

/-- The per-line body of the `ReadResponses` scan loop: the non-terminal part
(`stepBody`), then the terminal branches for `result` (complete all pending
tools, emit any permission denials, flush the buffered message as final) and
`input_request` (complete all pending tools except the referenced one, flush
as non-final, emit the input-request callback). -/
def stepLine (l : Line) (s : RState) : StepRes :=
  let rb := stepBody l s
  if l.type = "result" then
    let r5 := completeAllPending rb.2
    let o6 := if l.permissionDenials = [] then [] else [CB.permissionDenial l.permissionDenials]
    let o7 := if r5.2.hasMessage then [CB.message r5.2.lastMessage true] else []
    StepRes.stopCompleted (rb.1 ++ r5.1 ++ o6 ++ o7) r5.2
  else if l.type = "input_request" then
    let completions :=
      (rb.2.pendingTools.filter (fun id => id ≠ l.toolUseID)).map
        (fun id => CB.toolResult id false)
    let s5 := { rb.2 with pendingTools := rb.2.pendingTools.filter (fun id => id = l.toolUseID) }
    let r6 := flushBuffer s5
    StepRes.stopSuspended (rb.1 ++ completions ++ r6.1 ++ [CB.inputRequest l.toolUseID]) r6.2
  else
    StepRes.next rb.1 rb.2

/-- Outcome of a `ReadResponses` call: completed (result event), suspended
(input_request event), or the three stream-ended-without-terminal errors the
source distinguishes (stale session, unexpected exit, output ended while the
process still runs). -/
inductive Outcome where
  | completed : Outcome
  | suspended : Outcome
  | errSessionNotFound : Outcome
  | errExited : Outcome
  | errNoResult : Outcome
deriving DecidableEq, Repr

/-- Liveness flags consulted when the stream ends without a terminal event:
whether the `done` channel is closed (process exited) and whether the stderr
watcher recorded the `No conversation found with session ID` signal. -/
structure ProcFlags where
  exited : Bool := false
  sessionNotFound : Bool := false

/-- Error classification at end of stream (the code after the scan loop). -/
def endOutcome (f : ProcFlags) : Outcome :=
  if f.exited then
    if f.sessionNotFound then Outcome.errSessionNotFound else Outcome.errExited
  else Outcome.errNoResult

/-- Result of a whole `ReadResponses` call: the callback trace, the final
local state, and the outcome. -/
structure RRes where
  trace : List CB
  state : RState
  outcome : Outcome

/-- The scan loop over the remaining lines. -/
def readLoop : List Line → ProcFlags → RState → RRes
  | [], f, s => ⟨[], s, endOutcome f⟩
  | l :: ls, f, s =>
      match stepLine l s with
      | StepRes.next o s2 =>
          let r := readLoop ls f s2
          ⟨o ++ r.trace, r.state, r.outcome⟩
      | StepRes.stopCompleted o s2 => ⟨o, s2, Outcome.completed⟩
      | StepRes.stopSuspended o s2 => ⟨o, s2, Outcome.suspended⟩

/-- `ClaudeProcess.ReadResponses`: the locals (`lastMessage`, `hasMessage`,
`pendingTools`) start at their zero values at every call; the process-level
state is a parameter. -/
def readResponses (lines : List Line) (f : ProcFlags) (p : PState) : RRes :=
  readLoop lines f { lastMessage := "", hasMessage := false, pendingTools := [], proc := p }

/-- The callbacks emitted while processing one line. -/
def StepRes.out : StepRes → List CB
  | StepRes.next o _ => o
  | StepRes.stopCompleted o _ => o
  | StepRes.stopSuspended o _ => o

/-- The local state after processing one line. -/
def StepRes.state : StepRes → RState
  | StepRes.next _ s => s
  | StepRes.stopCompleted _ s => s
  | StepRes.stopSuspended _ s => s

/-! ### Trace observations -/

/-- Is this callback an `OnToolUse` invocation? -/
def isToolUseCB : CB → Bool
  | CB.toolUse _ _ _ => true
  | _ => false

/-- Is this callback an `OnMessage` invocation? -/
def isMessageCB : CB → Bool
  | CB.message _ _ => true
  | _ => false

/-- Is this callback a final `OnMessage` invocation (`isFinal = true`)? -/
def isFinalMsgCB : CB → Bool
  | CB.message _ true => true
  | _ => false

/-- Is this callback an `OnToolResult` invocation for the given tool id? -/
def isToolResultFor (id : String) : CB → Bool
  | CB.toolResult i _ => i == id
  | _ => false

/-- Is this callback an `OnToolUse` invocation for the given tool id? -/
def isToolUseFor (id : String) : CB → Bool
  | CB.toolUse i _ _ => i == id
  | _ => false

/-- Number of `OnToolResult` invocations for a tool id in a trace. -/
def cntTR (tr : List CB) (id : String) : Nat := tr.countP (isToolResultFor id)

/-- Number of `OnToolUse` invocations (announcements) for a tool id in a
trace. -/
def cntTU (tr : List CB) (id : String) : Nat := tr.countP (isToolUseFor id)

/-- `true` iff no `OnMessage` invocation occurs after any `OnToolUse`
invocation in the trace: every message callback precedes every tool-use
callback. -/
def noMsgAfterTool : List CB → Bool
  | [] => true
  | c :: rest =>
      if isToolUseCB c then rest.all (fun x => !isMessageCB x) else noMsgAfterTool rest

/-- `true` iff the first final message of the trace (if any) is its last
element; in particular at most one final message occurs and it follows every
non-final one. -/
def finalsLast : List CB → Bool
  | [] => true
  | c :: rest => if isFinalMsgCB c then rest.isEmpty else finalsLast rest

/-- `true` iff every `OnToolResult` invocation in the trace is for a tool id
that was announced by an earlier `OnToolUse` invocation of the same trace (or
was in `seen` to begin with). -/
def resultsAnnounced : List CB → List String → Bool
  | [], _ => true
  | CB.toolUse id _ _ :: rest, seen => resultsAnnounced rest (id :: seen)
  | CB.toolResult id _ :: rest, seen => seen.contains id && resultsAnnounced rest seen
  | _ :: rest, seen => resultsAnnounced rest seen

/-- The announced-id accumulator after scanning a trace. -/
def collectTU : List CB → List String → List String
  | [], seen => seen
  | CB.toolUse id _ _ :: rest, seen => collectTU rest (id :: seen)
  | _ :: rest, seen => collectTU rest seen

/-- Completion/announcement balance of a trace fragment: the completions it
emits for `id` plus the occurrences of `id` still pending afterwards equal
the announcements it emits for `id` plus the occurrences pending before. -/
def bal (out : List CB) (before after : List String) (id : String) : Prop :=
  cntTR out id + after.count id = cntTU out id + before.count id

/-- `true` iff the trace fragment contains no final message. -/
def noFinals (tr : List CB) : Bool := tr.all fun c => !isFinalMsgCB c

/-- `true` iff the trace fragment contains no `OnToolUse` invocation. -/
def noToolUses (tr : List CB) : Bool := tr.all fun c => !isToolUseCB c

/-- `true` iff the trace fragment contains no `OnMessage` invocation. -/
def noMessages (tr : List CB) : Bool := tr.all fun c => !isMessageCB c

/-! ### The session registry retry policy (`ProcessManager.Send` /
`sendWithRetry`, internal/claude/session.go)

One `sendWithRetry` level performs one end-to-end attempt: `GetOrCreate`,
`proc.Send`, `proc.ReadResponses`, then write-through persistence of the
session identifier.  The environment's behaviour at each attempt (whether
process creation, the stdin write and the read succeed, whether the stderr
watcher saw the stale-session signal, and which session id the init event
carried) is a list of `AttemptSpec`s, one consumed per attempt.  The
observable side effects are recorded as an `Act` trace. -/

/-- Environment behaviour of one end-to-end attempt. -/
structure AttemptSpec where
  createOk : Bool := true
  sendOk : Bool := true
  readOk : Bool := true
  readSessionNotFound : Bool := false
  newSessionID : String := ""

/-- Observable registry / persistence actions of `sendWithRetry`. -/
inductive Act where
  | reuse : Act
  | spawn (resume : String) : Act
  | evict : Act
  | persistDelete : Act
  | persistSet (sid : String) : Act
deriving DecidableEq, Repr

/-- Registry and persistence state for one conversation key: whether a live
process is registered, and the persisted session id (none = no mapping). -/
structure MState where
  hasLiveProc : Bool := false
  persisted : Option String := none
deriving DecidableEq, Repr

/-- Result of `ProcessManager.Send`. -/
inductive SendOutcome where
  | ok : SendOutcome
  | errCreate : SendOutcome
  | errSend : SendOutcome
  | errRead : SendOutcome
  | errNoSpec : SendOutcome
deriving DecidableEq, Repr

/-- Result record of the manager model. -/
structure MRes where
  acts : List Act
  st : MState
  outcome : SendOutcome
deriving DecidableEq, Repr

/-- Result of one end-to-end attempt: the recorded actions, the registry /
persistence state afterwards, and `none` on success or the failure to
surface / retry. -/
structure AttemptRes where
  acts : List Act
  st : MState
  failed : Option SendOutcome
deriving DecidableEq, Repr

/-- The read phase of one attempt: on success, persist the session id from
the init event when non-empty; on failure, evict the process and, when the
failure is classified stale-session (`proc.SessionNotFound()`), delete the
persisted mapping. -/
def readPhase (a : AttemptSpec) (st : MState) (acts0 : List Act) : AttemptRes :=
  if a.readOk then
    if a.newSessionID = "" then ⟨acts0, st, none⟩
    else
      ⟨acts0 ++ [Act.persistSet a.newSessionID],
        { st with persisted := some a.newSessionID }, none⟩
  else
    if a.readSessionNotFound then
      ⟨acts0 ++ [Act.evict, Act.persistDelete],
        { hasLiveProc := false, persisted := none }, some SendOutcome.errRead⟩
    else
      ⟨acts0 ++ [Act.evict], { st with hasLiveProc := false }, some SendOutcome.errRead⟩

/-- The send phase of one attempt: a failed stdin write evicts the process. -/
def sendPhase (a : AttemptSpec) (st : MState) (acts0 : List Act) : AttemptRes :=
  if a.sendOk then readPhase a st acts0
  else ⟨acts0 ++ [Act.evict], { st with hasLiveProc := false }, some SendOutcome.errSend⟩

/-- One end-to-end attempt of `sendWithRetry`: `GetOrCreate` (reusing a live
process, else spawning with the persisted session id as resume hint — a
creation failure is returned without retry), then the send and read phases. -/
def oneAttempt (a : AttemptSpec) (st : MState) : AttemptRes :=
  if st.hasLiveProc then sendPhase a st [Act.reuse]
  else if a.createOk then
    sendPhase a { st with hasLiveProc := true } [Act.spawn (st.persisted.getD "")]
  else ⟨[Act.spawn (st.persisted.getD "")], st, some SendOutcome.errCreate⟩

/-- `sendWithRetry(ctx, chatID, message, callbacks, retriesLeft)`: run one
attempt; on a send/read failure with retries left, recurse on the rest of the
environment behaviours (a `GetOrCreate` failure is surfaced immediately, as
in the source, where only the send and read branches retry). -/
def sendWithRetry : Nat → List AttemptSpec → MState → MRes
  | _, [], st => ⟨[], st, SendOutcome.errNoSpec⟩
  | n, a :: rest, st =>
      let r := oneAttempt a st
      match r.failed with
      | none => ⟨r.acts, r.st, SendOutcome.ok⟩
      | some e =>
          if e = SendOutcome.errCreate then ⟨r.acts, r.st, e⟩
          else
            match n with
            | 0 => ⟨r.acts, r.st, e⟩
            | m + 1 =>
                let r2 := sendWithRetry m rest r.st
                ⟨r.acts ++ r2.acts, r2.st, r2.outcome⟩

/-- `ProcessManager.Send` delegates to `sendWithRetry` with one retry. -/
def mgrSend (specs : List AttemptSpec) (st : MState) : MRes :=
  sendWithRetry 1 specs st

/-- Number of end-to-end attempts in an action trace: each attempt begins
with exactly one `GetOrCreate` (a reuse or a spawn). -/
def gocCount (acts : List Act) : Nat :=
  acts.countP fun a =>
    match a with
    | Act.reuse => true
    | Act.spawn _ => true
    | _ => false

/-- The outcome of a single attempt run with no retries left, from a fresh
(no live process) registry state. -/
def attemptOutcome (a : AttemptSpec) : SendOutcome :=
  if a.createOk = false then SendOutcome.errCreate
  else if a.sendOk = false then SendOutcome.errSend
  else if a.readOk = false then SendOutcome.errRead
  else SendOutcome.ok

/-! ### The permission bridge wait and decision delivery (cmd/aria/main.go)

`callbackServer.SetHandler` parks a permission request on a capacity-1
response channel and selects over the channel, request cancellation and a
2-minute timer; `bot.SetCallbackHandler` delivers a human decision with a
non-blocking channel send.  The per-chat pending-permission tracker
(`trackers.Manager`, whose source is not under src/ — only its callers are)
is modelled from the spec: at most one `PendingPermission` per conversation,
stored by `SetPermission`, read by `GetPermission` and removed by
`ClearPermission`; the tracker state for one chat is therefore an
`Option PendingPermission`.  The capacity-1 channel is modelled as an
`Option` buffer. -/

/-- A human permission decision (`trackers.PermissionResult`). -/
structure PermissionResult where
  behavior : String
  updatedInput : List (String × JVal) := []
  message : String := ""

/-- The response returned to the MCP bridge (`mcp.PermissionResponse`). -/
structure PermissionResponse where
  behavior : String
  updatedInput : List (String × JVal) := []
  message : String := ""

/-- Modelled from the spec: `trackers.PendingPermission` (the trackers
package is not under src/; the field list is visible at the construction site
in cmd/aria/main.go).  `response` is the capacity-1 response channel,
modelled as its buffer. -/
structure PendingPermission where
  toolID : String := "perm"
  toolName : String := ""
  input : List (String × JVal) := []
  messageID : Int := 0
  response : Option PermissionResult := none

/-- Which arm of the three-way select in the permission handler resolves the
wait. -/
inductive WaitArm where
  | response (r : PermissionResult) : WaitArm
  | cancelled : WaitArm
  | timeout : WaitArm

/-- The wait budget of the select's timer arm, in minutes
(`time.After(2 * time.Minute)`). -/
def permissionTimeoutMinutes : Nat := 2

/-- The select statement of the `callbackServer.SetHandler` closure: the
resolving arm determines the `PermissionResponse` and the surviving
pending-permission tracker state (cancellation and timeout call
`trackerMgr.ClearPermission`; the response arm leaves clearing to the
deliverer). -/
def resolveWait (arm : WaitArm) (tracker : Option PendingPermission) :
    PermissionResponse × Option PendingPermission :=
  match arm with
  | WaitArm.response r => (⟨r.behavior, r.updatedInput, r.message⟩, tracker)
  | WaitArm.cancelled => (⟨"deny", [], "Request cancelled"⟩, none)
  | WaitArm.timeout => (⟨"deny", [], "Permission request timed out"⟩, none)

/-- The decision a keyboard action string maps to in `bot.SetCallbackHandler`
("a" allow, "aa" allow-always, "d" deny; anything else is invalid). -/
def mkPermissionResult (action : String) (pending : PendingPermission) :
    Option PermissionResult :=
  if action = "a" then some ⟨"allow", pending.input, ""⟩
  else if action = "aa" then some ⟨"allow-always", pending.input, ""⟩
  else if action = "d" then some ⟨"deny", [], "User denied permission"⟩
  else none

/-- The permission branch of `bot.SetCallbackHandler`: look up the pending
permission (answering "Permission request expired" when none), map the action
to a decision, then send it with a non-blocking select — when the capacity-1
channel already holds a value the send is dropped (the `default` branch) and
the pending state is left untouched; on a successful send the keyboard is
deleted and the pending state cleared. -/
def deliverDecision (tracker : Option PendingPermission) (action : String) :
    String × Option PendingPermission :=
  match tracker with
  | none => ("Permission request expired", none)
  | some pending =>
      match mkPermissionResult action pending with
      | none => ("Invalid permission action", some pending)
      | some result =>
          match pending.response with
          | none => ("Permission: " ++ result.behavior, none)
          | some _ => ("Permission: " ++ result.behavior, some pending)

/-! ### Session persistence round-trip (internal/claude/persistence.go)

`Save` converts the in-memory chat→mapping map to a `sessions:` record list
and writes it as YAML; `Load` parses the list back and rebuilds the map keyed
by each record's chat id.  The in-memory map is modelled as an association
list with distinct keys (a determinization of the Go map); the YAML
marshal/unmarshal byte round-trip is modelled as the identity on the
structured document.  Modelled from the spec: the current cwd-aware
`SessionPersistence` is not under src/ (only callers of its `GetCwd` /
`SetCwdPreserveSession` are); per the spec's on-disk layout each record is
`{conversation key, session identifier, last-active timestamp,
[working directory]}`, so `SessionMapping` carries an optional working
directory alongside the fields of the persisted struct in
internal/claude/persistence.go; the timestamp is modelled as an integer
(spec: equality "within serialization tolerance"). -/

/-- One persisted session record. -/
structure SessionMapping where
  chatID : Int
  sessionID : String
  lastActive : Int
  cwd : String := ""
deriving DecidableEq, Repr

/-- `Save`: enumerate the in-memory map into the document's record list (Go
map iteration order is unspecified; the association-list order is one
determinization). -/
def saveSessions (m : List (Int × SessionMapping)) : List SessionMapping :=
  m.map (fun kv => kv.2)

/-- Store a record into the in-memory map under its key
(`p.sessions[s.ChatID] = s`): replace an existing entry, else append. -/
def insertAssoc : List (Int × SessionMapping) → Int → SessionMapping →
    List (Int × SessionMapping)
  | [], k, v => [(k, v)]
  | (k0, v0) :: rest, k, v =>
      if k0 = k then (k, v) :: rest else (k0, v0) :: insertAssoc rest k v

/-- `Load`: rebuild the in-memory map from the document's record list, keying
each record by its chat id. -/
def loadSessions (doc : List SessionMapping) : List (Int × SessionMapping) :=
  doc.foldl (fun m s => insertAssoc m s.chatID s) []

/-- Well-formedness of the in-memory map: keys are distinct and every entry
is stored under its own chat id (both hold by construction in the Go code,
where the map key is always `mapping.ChatID`). -/
def sessionsWF (m : List (Int × SessionMapping)) : Prop :=
  (m.map (fun kv => kv.1)).Nodup ∧ ∀ kv ∈ m, kv.2.chatID = kv.1

/-! ### Double-checked locking in `ProcessManager.GetOrCreate`
(internal/claude/session.go)

Two goroutines run `GetOrCreate` for the same conversation key.  Each
executes two atomic phases: the read phase (the `RLock`-protected map read
followed by the `Alive()` check) and, if that fails, the critical section
(the whole `mu.Lock()`-protected block: recheck, dead-process cleanup, spawn,
register).  The critical section is atomic because it runs under the
exclusive lock; process liveness is stable during the episode (a process
spawned by `GetOrCreate` is live, and `GetOrCreate` never kills a live
process), so folding the out-of-lock `Alive()` check into the read step loses
no interleavings.  A schedule is an arbitrary list of thread choices; a
chosen thread that has already returned simply stutters. -/

/-- Liveness of a registered process. -/
inductive PStatus where
  | live : PStatus
  | dead : PStatus
deriving DecidableEq, Repr

/-- Shared state of the two-thread `GetOrCreate` episode: the registry slot
for the key, the number of subprocesses spawned, and each thread's program
counter (0 = read phase, 1 = critical section, 2 = returned) and return
value. -/
structure CState where
  reg : Option (Nat × PStatus) := none
  spawned : Nat := 0
  pc1 : Nat := 0
  pc2 : Nat := 0
  ret1 : Option Nat := none
  ret2 : Option Nat := none
deriving DecidableEq, Repr

/-- Mark a thread as returned with the given process. -/
def setRet (s : CState) (fst : Bool) (p : Nat) : CState :=
  if fst then { s with pc1 := 2, ret1 := some p } else { s with pc2 := 2, ret2 := some p }

/-- One atomic step of the chosen thread. -/
def threadStep (s : CState) (fst : Bool) : CState :=
  let pc := if fst then s.pc1 else s.pc2
  if pc = 0 then
    match s.reg with
    | some (p, PStatus.live) => setRet s fst p
    | _ => if fst then { s with pc1 := 1 } else { s with pc2 := 1 }
  else if pc = 1 then
    match s.reg with
    | some (p, PStatus.live) => setRet s fst p
    | _ =>
        let id := 1000 + s.spawned
        setRet { s with reg := some (id, PStatus.live), spawned := s.spawned + 1 } fst id
  else s

/-- Run a schedule (list of thread choices). -/
def runSched (sched : List Bool) (s : CState) : CState :=
  sched.foldl threadStep s

/-- Initial states of an episode: neither thread has started, no spawn has
been counted; the registry slot may be empty or hold a live or dead process
from before. -/
def validInit (s : CState) : Prop :=
  s.spawned = 0 ∧ s.pc1 = 0 ∧ s.pc2 = 0 ∧ s.ret1 = none ∧ s.ret2 = none

/-- Inductive invariant of the two-thread episode: at most one spawn has
happened; once a spawn happened the registry holds a live process; a returned
thread returned exactly the registered live process; a thread at pc 2 has a
return value. -/
def c9Inv (s : CState) : Prop :=
  s.spawned ≤ 1 ∧
  (1 ≤ s.spawned → ∃ q, s.reg = some (q, PStatus.live)) ∧
  (∀ p, s.ret1 = some p → s.reg = some (p, PStatus.live)) ∧
  (∀ p, s.ret2 = some p → s.reg = some (p, PStatus.live)) ∧
  (s.pc1 = 2 → ∃ p, s.ret1 = some p) ∧
  (s.pc2 = 2 → ∃ p, s.ret2 = some p)

/-! ### Concrete protocol lines used by the counterexample and code-bug
evaluations -/

/-- Assistant line announcing tool `t1`. -/
def c4LineTool : Line :=
  { type := "assistant", content := [{ type := "tool_use", id := "t1", name := "AskUserQuestion" }] }

/-- `input_request` line referencing tool `t1`. -/
def c4LineInput : Line := { type := "input_request", toolUseID := "t1" }

/-- Assistant line announcing a tool_use block with an empty id. -/
def c1LineTool : Line :=
  { type := "assistant", content := [{ type := "tool_use", id := "", name := "X" }] }

/-- `input_request` line carrying no `tool_use_id`. -/
def c1LineInput : Line := { type := "input_request" }

/-!
## Theorems

### Completion/announcement balance (claims C1, C10)
-/

@[simp]
theorem cntTR_append (a b : List CB) (id : String) :
    cntTR (a ++ b) id = cntTR a id + cntTR b id :=
  List.countP_append _ _ _

@[simp]
theorem cntTU_append (a b : List CB) (id : String) :
    cntTU (a ++ b) id = cntTU a id + cntTU b id :=
  List.countP_append _ _ _

theorem bal_nil (p : List String) (id : String) : bal [] p p id := by
  simp [bal, cntTR, cntTU]

theorem bal_append {o1 o2 : List CB} {p1 p2 p3 : List String} {id : String}
    (h1 : bal o1 p1 p2 id) (h2 : bal o2 p2 p3 id) : bal (o1 ++ o2) p1 p3 id := by
  unfold bal at *
  simp only [cntTR_append, cntTU_append]
  omega

@[simp]
theorem flushBuffer_pending (s : RState) :
    (flushBuffer s).2.pendingTools = s.pendingTools := by
  unfold flushBuffer; split <;> rfl

theorem flushBuffer_cntTR (s : RState) (id : String) : cntTR (flushBuffer s).1 id = 0 := by
  unfold flushBuffer cntTR; split <;> simp [isToolResultFor]

theorem flushBuffer_cntTU (s : RState) (id : String) : cntTU (flushBuffer s).1 id = 0 := by
  unfold flushBuffer cntTU; split <;> simp [isToolUseFor]

theorem flushBuffer_bal (s : RState) (id : String) :
    bal (flushBuffer s).1 s.pendingTools (flushBuffer s).2.pendingTools id := by
  unfold bal
  rw [flushBuffer_cntTR, flushBuffer_cntTU, flushBuffer_pending]

theorem completeTool_bal (t : String) (e : Bool) (s : RState) (id : String) :
    bal (completeTool t e s).1 s.pendingTools (completeTool t e s).2.pendingTools id := by
  unfold completeTool bal cntTR cntTU
  split
  case isTrue h =>
    simp only [List.countP_cons, List.countP_nil, isToolResultFor, isToolUseFor,
      List.count_erase]
    by_cases ht : t = id
    · subst ht
      have hpos : 0 < s.pendingTools.count t := List.count_pos_iff.mpr h
      simp
      omega
    · have : (t == id) = false := beq_false_of_ne ht
      simp [this]
  case isFalse h => simp

@[simp]
theorem completeAllPending_pending (s : RState) :
    (completeAllPending s).2.pendingTools = [] := rfl

theorem completeAllPending_cntTR (s : RState) (id : String) :
    cntTR (completeAllPending s).1 id = s.pendingTools.count id := by
  unfold completeAllPending cntTR
  rw [List.countP_map]
  rfl

theorem completeAllPending_cntTU (s : RState) (id : String) :
    cntTU (completeAllPending s).1 id = 0 := by
  unfold completeAllPending cntTU
  rw [List.countP_map]
  simp [isToolUseFor, Function.comp]

theorem completeAllPending_bal (s : RState) (id : String) :
    bal (completeAllPending s).1 s.pendingTools [] id := by
  unfold bal
  rw [completeAllPending_cntTR, completeAllPending_cntTU]
  simp

theorem genericToolResultCheck_bal (l : Line) (s : RState) (id : String) :
    bal (genericToolResultCheck l s).1 s.pendingTools
      (genericToolResultCheck l s).2.pendingTools id := by
  unfold genericToolResultCheck
  split
  · exact bal_nil _ _
  · exact completeTool_bal _ _ _ _

theorem todoCallbacks_cntTR (c : ContentBlock) (id : String) :
    cntTR (todoCallbacks c) id = 0 := by
  unfold todoCallbacks cntTR
  split
  · split <;> simp [isToolResultFor]
  · simp

theorem todoCallbacks_cntTU (c : ContentBlock) (id : String) :
    cntTU (todoCallbacks c) id = 0 := by
  unfold todoCallbacks cntTU
  split
  · split <;> simp [isToolUseFor]
  · simp

theorem bal_pure {o : List CB} {p : List String} {id : String}
    (h1 : cntTR o id = 0) (h2 : cntTU o id = 0) : bal o p p id := by
  unfold bal; omega

theorem procTexts_bal (ts : List String) :
    ∀ (s : RState) (id : String),
      bal (procTexts ts s).1 s.pendingTools (procTexts ts s).2.pendingTools id := by
  induction ts with
  | nil => intro s id; exact bal_nil _ _
  | cons t ts ih =>
      intro s id
      simp only [procTexts]
      exact bal_append (bal_append (completeAllPending_bal s id)
        (flushBuffer_bal _ id)) (ih _ id)

theorem procTools_bal (cs : List ContentBlock) :
    ∀ (s : RState) (id : String),
      bal (procTools cs s).1 s.pendingTools (procTools cs s).2.pendingTools id := by
  induction cs with
  | nil => intro s id; exact bal_nil _ _
  | cons c cs ih =>
      intro s id
      simp only [procTools]
      have hX : (flushBuffer (completeAllPending s).2).2.pendingTools = [] := by simp
      have hTodo : bal (todoCallbacks c) (flushBuffer (completeAllPending s).2).2.pendingTools
          (flushBuffer (completeAllPending s).2).2.pendingTools id :=
        bal_pure (todoCallbacks_cntTR c id) (todoCallbacks_cntTU c id)
      have hTU : bal [CB.toolUse c.id c.name c.input]
          (flushBuffer (completeAllPending s).2).2.pendingTools
          (insertPending c.id (flushBuffer (completeAllPending s).2).2.pendingTools) id := by
        rw [hX]
        show bal [CB.toolUse c.id c.name c.input] [] (insertPending c.id []) id
        have hins : insertPending c.id ([] : List String) = [c.id] := by
          simp [insertPending]
        rw [hins]
        unfold bal
        by_cases hc : c.id = id
        · subst hc; simp [cntTR, cntTU, isToolResultFor, isToolUseFor]
        · have hb : (c.id == id) = false := beq_false_of_ne hc
          simp [cntTR, cntTU, isToolResultFor, isToolUseFor, hb, List.count_cons]
      have hrec := ih { (flushBuffer (completeAllPending s).2).2 with
          pendingTools :=
            insertPending c.id (flushBuffer (completeAllPending s).2).2.pendingTools } id
      exact bal_append (bal_append (bal_append (bal_append (completeAllPending_bal s id)
        (flushBuffer_bal _ id)) hTodo) hTU) hrec

theorem procUserContents_bal (cs : List ContentBlock) :
    ∀ (topErr : String) (s : RState) (id : String),
      bal (procUserContents cs topErr s).1 s.pendingTools
        (procUserContents cs topErr s).2.pendingTools id := by
  induction cs with
  | nil => intro topErr s id; exact bal_nil _ _
  | cons c cs ih =>
      intro topErr s id
      simp only [procUserContents]
      split
      · refine bal_append (bal_append (completeTool_bal _ _ _ _) (bal_pure ?_ ?_)) (ih _ _ id)
        · split <;> simp [cntTR, isToolResultFor]
        · split <;> simp [cntTU, isToolUseFor]
      · exact ih _ _ id

@[simp]
theorem initCapture_pending (l : Line) (s : RState) :
    (initCapture l s).pendingTools = s.pendingTools := by
  unfold initCapture; split <;> rfl

theorem userPass_bal (l : Line) (s : RState) (id : String) :
    bal (userPass l s).1 s.pendingTools (userPass l s).2.pendingTools id := by
  unfold userPass
  split
  · exact procUserContents_bal _ _ _ id
  · exact bal_nil _ _

theorem assistantPass_bal (l : Line) (s : RState) (id : String) :
    bal (assistantPass l s).1 s.pendingTools (assistantPass l s).2.pendingTools id := by
  unfold assistantPass
  split
  · exact bal_append (procTexts_bal _ _ id) (procTools_bal _ _ id)
  · exact bal_nil _ _

theorem stepBody_bal (l : Line) (s : RState) (id : String) :
    bal (stepBody l s).1 s.pendingTools (stepBody l s).2.pendingTools id := by
  simp only [stepBody]
  have h3 : bal (userPass l (initCapture l (genericToolResultCheck l s).2)).1
      (genericToolResultCheck l s).2.pendingTools
      (userPass l (initCapture l (genericToolResultCheck l s).2)).2.pendingTools id := by
    have := userPass_bal l (initCapture l (genericToolResultCheck l s).2) id
    rwa [initCapture_pending] at this
  exact bal_append (bal_append (genericToolResultCheck_bal l s id) h3)
    (assistantPass_bal l _ id)

theorem cntTR_map_toolResult (L : List String) (id : String) :
    cntTR (L.map (fun i => CB.toolResult i false)) id = L.count id := by
  unfold cntTR; rw [List.countP_map]; rfl

theorem cntTU_map_toolResult (L : List String) (id : String) :
    cntTU (L.map (fun i => CB.toolResult i false)) id = 0 := by
  unfold cntTU; rw [List.countP_map]; simp [isToolUseFor, Function.comp]

theorem insertPending_nodup (id : String) (l : List String) (h : l.Nodup) :
    (insertPending id l).Nodup := by
  unfold insertPending
  split
  · exact h
  · rw [List.nodup_append]
    exact ⟨h, List.nodup_singleton id, List.disjoint_singleton.mpr (by assumption)⟩

theorem completeTool_nodup (t : String) (e : Bool) (s : RState)
    (h : s.pendingTools.Nodup) : (completeTool t e s).2.pendingTools.Nodup := by
  unfold completeTool
  split
  · exact h.erase t
  · exact h

theorem procTexts_nodup (ts : List String) :
    ∀ s : RState, s.pendingTools.Nodup → (procTexts ts s).2.pendingTools.Nodup := by
  induction ts with
  | nil => intro s h; exact h
  | cons t ts ih =>
      intro s _
      simp only [procTexts]
      exact ih _ (by simp)

theorem procTools_nodup (cs : List ContentBlock) :
    ∀ s : RState, s.pendingTools.Nodup → (procTools cs s).2.pendingTools.Nodup := by
  induction cs with
  | nil => intro s h; exact h
  | cons c cs ih =>
      intro s _
      simp only [procTools]
      refine ih _ ?_
      show (insertPending c.id (flushBuffer (completeAllPending s).2).2.pendingTools).Nodup
      refine insertPending_nodup _ _ ?_
      simp

theorem procUserContents_nodup (cs : List ContentBlock) :
    ∀ (topErr : String) (s : RState), s.pendingTools.Nodup →
      (procUserContents cs topErr s).2.pendingTools.Nodup := by
  induction cs with
  | nil => intro _ s h; exact h
  | cons c cs ih =>
      intro topErr s h
      simp only [procUserContents]
      split
      · exact ih _ _ (completeTool_nodup _ _ _ h)
      · exact ih _ _ h

theorem stepBody_nodup (l : Line) (s : RState) (h : s.pendingTools.Nodup) :
    (stepBody l s).2.pendingTools.Nodup := by
  simp only [stepBody]
  have h1 : (genericToolResultCheck l s).2.pendingTools.Nodup := by
    unfold genericToolResultCheck
    split
    · exact h
    · exact completeTool_nodup _ _ _ h
  have h3 : (userPass l (initCapture l (genericToolResultCheck l s).2)).2.pendingTools.Nodup := by
    unfold userPass
    split
    · exact procUserContents_nodup _ _ _ (by rw [initCapture_pending]; exact h1)
    · rw [initCapture_pending]; exact h1
  unfold assistantPass
  split
  · exact procTools_nodup _ _ (procTexts_nodup _ _ h3)
  · exact h3

theorem genericToolResultCheck_count_self (l : Line) (s : RState)
    (h : l.toolUseID ≠ "") (hnd : s.pendingTools.Nodup) :
    (genericToolResultCheck l s).2.pendingTools.count l.toolUseID = 0 := by
  unfold genericToolResultCheck completeTool
  rw [if_neg h]
  split
  · exact List.count_eq_zero.mpr (hnd.not_mem_erase)
  · exact List.count_eq_zero.mpr (by assumption)

theorem stepBody_pending_of_not_user_assistant (l : Line) (s : RState)
    (hu : ¬l.type = "user") (ha : ¬l.type = "assistant") :
    (stepBody l s).2.pendingTools = (genericToolResultCheck l s).2.pendingTools := by
  simp only [stepBody, userPass, assistantPass, if_neg hu, if_neg ha]
  rw [initCapture_pending]

theorem endOutcome_not_terminal (f : ProcFlags) :
    endOutcome f ≠ Outcome.completed ∧ endOutcome f ≠ Outcome.suspended := by
  unfold endOutcome
  split
  · split <;> exact ⟨fun h => Outcome.noConfusion h, fun h => Outcome.noConfusion h⟩
  · exact ⟨fun h => Outcome.noConfusion h, fun h => Outcome.noConfusion h⟩

theorem readLoop_balance (ls : List Line) :
    ∀ (f : ProcFlags) (s : RState) (id : String),
      s.pendingTools.Nodup → id ≠ "" →
      ((readLoop ls f s).outcome = Outcome.completed ∨
        (readLoop ls f s).outcome = Outcome.suspended) →
      cntTR (readLoop ls f s).trace id =
        cntTU (readLoop ls f s).trace id + s.pendingTools.count id := by
  induction ls with
  | nil =>
      intro f s id _ _ hterm
      exfalso
      simp only [readLoop] at hterm
      rcases hterm with h | h
      · exact (endOutcome_not_terminal f).1 h
      · exact (endOutcome_not_terminal f).2 h
  | cons l ls ih =>
      intro f s id hnd hid hterm
      by_cases hr : l.type = "result"
      · have hstep : stepLine l s = StepRes.stopCompleted
            ((stepBody l s).1 ++ (completeAllPending (stepBody l s).2).1 ++
              (if l.permissionDenials = [] then []
                else [CB.permissionDenial l.permissionDenials]) ++
              (if (completeAllPending (stepBody l s).2).2.hasMessage then
                [CB.message (completeAllPending (stepBody l s).2).2.lastMessage true] else []))
            (completeAllPending (stepBody l s).2).2 := by
          simp only [stepLine, if_pos hr]
        simp only [readLoop, hstep]
        have h1 := stepBody_bal l s id
        unfold bal at h1
        have h2 := completeAllPending_cntTR (stepBody l s).2 id
        have h3 := completeAllPending_cntTU (stepBody l s).2 id
        have h4 : cntTR (if l.permissionDenials = [] then []
            else [CB.permissionDenial l.permissionDenials]) id = 0 := by
          split <;> simp [cntTR, isToolResultFor]
        have h5 : cntTU (if l.permissionDenials = [] then []
            else [CB.permissionDenial l.permissionDenials]) id = 0 := by
          split <;> simp [cntTU, isToolUseFor]
        have h6 : cntTR (if (completeAllPending (stepBody l s).2).2.hasMessage then
            [CB.message (completeAllPending (stepBody l s).2).2.lastMessage true] else []) id
            = 0 := by
          split <;> simp [cntTR, isToolResultFor]
        have h7 : cntTU (if (completeAllPending (stepBody l s).2).2.hasMessage then
            [CB.message (completeAllPending (stepBody l s).2).2.lastMessage true] else []) id
            = 0 := by
          split <;> simp [cntTU, isToolUseFor]
        simp only [cntTR_append, cntTU_append]
        omega
      · by_cases hi : l.type = "input_request"
        · have hu : ¬l.type = "user" := by rw [hi]; decide
          have ha : ¬l.type = "assistant" := by rw [hi]; decide
          have hstep : stepLine l s = StepRes.stopSuspended
              ((stepBody l s).1 ++
                ((stepBody l s).2.pendingTools.filter (fun id => id ≠ l.toolUseID)).map
                  (fun id => CB.toolResult id false) ++
                (flushBuffer { (stepBody l s).2 with
                  pendingTools :=
                    (stepBody l s).2.pendingTools.filter (fun id => id = l.toolUseID) }).1 ++
                [CB.inputRequest l.toolUseID])
              (flushBuffer { (stepBody l s).2 with
                pendingTools :=
                  (stepBody l s).2.pendingTools.filter (fun id => id = l.toolUseID) }).2 := by
            simp only [stepLine, if_neg hr, if_pos hi]
          simp only [readLoop, hstep]
          have h1 := stepBody_bal l s id
          unfold bal at h1
          have h2 := cntTR_map_toolResult
            ((stepBody l s).2.pendingTools.filter (fun id => id ≠ l.toolUseID)) id
          have h3 := cntTU_map_toolResult
            ((stepBody l s).2.pendingTools.filter (fun id => id ≠ l.toolUseID)) id
          have h4 := flushBuffer_cntTR { (stepBody l s).2 with
            pendingTools :=
              (stepBody l s).2.pendingTools.filter (fun id => id = l.toolUseID) } id
          have h5 := flushBuffer_cntTU { (stepBody l s).2 with
            pendingTools :=
              (stepBody l s).2.pendingTools.filter (fun id => id = l.toolUseID) } id
          have h6 : cntTR [CB.inputRequest l.toolUseID] id = 0 := by
            simp [cntTR, isToolResultFor]
          have h7 : cntTU [CB.inputRequest l.toolUseID] id = 0 := by
            simp [cntTU, isToolUseFor]
          simp only [cntTR_append, cntTU_append]
          rw [h2, h3, h4, h5, h6, h7]
          by_cases hidt : id = l.toolUseID
          · subst hidt
            have hP0 : (stepBody l s).2.pendingTools.count l.toolUseID = 0 := by
              rw [stepBody_pending_of_not_user_assistant l s hu ha]
              exact genericToolResultCheck_count_self l s hid hnd
            have hPf : ((stepBody l s).2.pendingTools.filter
                (fun i => i ≠ l.toolUseID)).count l.toolUseID = 0 := by
              have hle : ((stepBody l s).2.pendingTools.filter
                  (fun i => i ≠ l.toolUseID)).countP (fun x => x == l.toolUseID) ≤
                  (stepBody l s).2.pendingTools.countP (fun x => x == l.toolUseID) := by
                rw [List.countP_filter]
                exact List.countP_mono_left (fun x _ h => by
                  simp only [Bool.and_eq_true] at h
                  exact h.1)
              have hc : (stepBody l s).2.pendingTools.countP
                  (fun x => x == l.toolUseID) = 0 := hP0
              have hz : ((stepBody l s).2.pendingTools.filter
                  (fun i => i ≠ l.toolUseID)).countP (fun x => x == l.toolUseID) = 0 := by
                omega
              exact hz
            rw [hPf]
            omega
          · have hPf : ((stepBody l s).2.pendingTools.filter
                (fun i => i ≠ l.toolUseID)).count id =
                (stepBody l s).2.pendingTools.count id :=
              List.count_filter (by simp [hidt])
            rw [hPf]
            omega
        · have hstep : stepLine l s = StepRes.next (stepBody l s).1 (stepBody l s).2 := by
            simp only [stepLine, if_neg hr, if_neg hi]
          simp only [readLoop, hstep] at hterm ⊢
          have hrec := ih f (stepBody l s).2 id (stepBody_nodup l s hnd) hid hterm
          have h1 := stepBody_bal l s id
          unfold bal at h1
          simp only [cntTR_append, cntTU_append]
          omega

theorem noFinals_append (a b : List CB) :
    noFinals (a ++ b) = (noFinals a && noFinals b) := by
  simp [noFinals, List.all_append]

theorem noFinals_finalsLast (tr : List CB) (h : noFinals tr = true) :
    finalsLast tr = true := by
  induction tr with
  | nil => rfl
  | cons c tr ih =>
      simp only [noFinals, List.all_cons, Bool.and_eq_true] at h
      simp only [finalsLast]
      rw [if_neg (by simpa using h.1)]
      exact ih h.2

theorem finalsLast_append_left (a b : List CB) (ha : noFinals a = true)
    (hb : finalsLast b = true) : finalsLast (a ++ b) = true := by
  induction a with
  | nil => simpa using hb
  | cons c a ih =>
      simp only [noFinals, List.all_cons, Bool.and_eq_true] at ha
      simp only [List.cons_append, finalsLast]
      rw [if_neg (by simpa using ha.1)]
      exact ih ha.2

theorem flushBuffer_noFinals (s : RState) : noFinals (flushBuffer s).1 = true := by
  unfold flushBuffer
  split <;> simp [noFinals, isFinalMsgCB]

theorem map_toolResult_noFinals (L : List String) :
    noFinals (L.map (fun id => CB.toolResult id false)) = true := by
  unfold noFinals
  simp only [List.all_eq_true]
  intro x hx
  obtain ⟨i, -, rfl⟩ := List.mem_map.mp hx
  rfl

theorem completeAllPending_noFinals (s : RState) :
    noFinals (completeAllPending s).1 = true :=
  map_toolResult_noFinals s.pendingTools

theorem completeTool_noFinals (t : String) (e : Bool) (s : RState) :
    noFinals (completeTool t e s).1 = true := by
  unfold completeTool
  split <;> simp [noFinals, isFinalMsgCB]

theorem todoCallbacks_noFinals (c : ContentBlock) :
    noFinals (todoCallbacks c) = true := by
  unfold todoCallbacks
  split
  · split <;> simp [noFinals, isFinalMsgCB]
  · simp [noFinals]

theorem procTexts_noFinals (ts : List String) :
    ∀ s : RState, noFinals (procTexts ts s).1 = true := by
  induction ts with
  | nil => intro s; rfl
  | cons t ts ih =>
      intro s
      simp only [procTexts, noFinals_append, Bool.and_eq_true]
      exact ⟨⟨completeAllPending_noFinals s, flushBuffer_noFinals _⟩, ih _⟩

theorem procTools_noFinals (cs : List ContentBlock) :
    ∀ s : RState, noFinals (procTools cs s).1 = true := by
  induction cs with
  | nil => intro s; rfl
  | cons c cs ih =>
      intro s
      simp only [procTools, noFinals_append, Bool.and_eq_true]
      refine ⟨⟨⟨⟨completeAllPending_noFinals s, flushBuffer_noFinals _⟩,
        todoCallbacks_noFinals c⟩, by simp [noFinals, isFinalMsgCB]⟩, ih _⟩

theorem procUserContents_noFinals (cs : List ContentBlock) :
    ∀ (topErr : String) (s : RState),
      noFinals (procUserContents cs topErr s).1 = true := by
  induction cs with
  | nil => intro _ s; rfl
  | cons c cs ih =>
      intro topErr s
      simp only [procUserContents]
      split
      · simp only [noFinals_append, Bool.and_eq_true]
        refine ⟨⟨completeTool_noFinals _ _ _, ?_⟩, ih _ _⟩
        split <;> simp [noFinals, isFinalMsgCB]
      · exact ih _ _

theorem stepBody_noFinals (l : Line) (s : RState) :
    noFinals (stepBody l s).1 = true := by
  simp only [stepBody, noFinals_append, Bool.and_eq_true]
  have h1 : noFinals (genericToolResultCheck l s).1 = true := by
    unfold genericToolResultCheck
    split
    · rfl
    · exact completeTool_noFinals _ _ _
  have h3 : noFinals (userPass l (initCapture l (genericToolResultCheck l s).2)).1 = true := by
    unfold userPass
    split
    · exact procUserContents_noFinals _ _ _
    · rfl
  have h4 : noFinals (assistantPass l
      (userPass l (initCapture l (genericToolResultCheck l s).2)).2).1 = true := by
    unfold assistantPass
    split
    · simp only [noFinals_append, Bool.and_eq_true]
      exact ⟨procTexts_noFinals _ _, procTools_noFinals _ _⟩
    · rfl
  exact ⟨⟨h1, h3⟩, h4⟩

theorem noFinals_countP_zero (tr : List CB) (h : noFinals tr = true) :
    tr.countP isFinalMsgCB = 0 := by
  rw [List.countP_eq_zero]
  intro a ha
  simp only [noFinals, List.all_eq_true] at h
  simpa using h a ha

theorem readLoop_finals (ls : List Line) :
    ∀ (f : ProcFlags) (s : RState),
      finalsLast (readLoop ls f s).trace = true
      ∧ (readLoop ls f s).trace.countP isFinalMsgCB ≤ 1
      ∧ (0 < (readLoop ls f s).trace.countP isFinalMsgCB →
          (readLoop ls f s).outcome = Outcome.completed) := by
  induction ls with
  | nil =>
      intro f s
      exact ⟨rfl, by simp [readLoop, cntTR], fun h => absurd h (by simp [readLoop])⟩
  | cons l ls ih =>
      intro f s
      by_cases hr : l.type = "result"
      · have hstep : stepLine l s = StepRes.stopCompleted
            ((stepBody l s).1 ++ (completeAllPending (stepBody l s).2).1 ++
              (if l.permissionDenials = [] then []
                else [CB.permissionDenial l.permissionDenials]) ++
              (if (completeAllPending (stepBody l s).2).2.hasMessage then
                [CB.message (completeAllPending (stepBody l s).2).2.lastMessage true] else []))
            (completeAllPending (stepBody l s).2).2 := by
          simp only [stepLine, if_pos hr]
        simp only [readLoop, hstep]
        have hA : noFinals ((stepBody l s).1 ++ (completeAllPending (stepBody l s).2).1 ++
            (if l.permissionDenials = [] then []
              else [CB.permissionDenial l.permissionDenials])) = true := by
          simp only [noFinals_append, Bool.and_eq_true]
          refine ⟨⟨stepBody_noFinals l s, completeAllPending_noFinals _⟩, ?_⟩
          split <;> simp [noFinals, isFinalMsgCB]
        have hB : finalsLast (if (completeAllPending (stepBody l s).2).2.hasMessage then
            [CB.message (completeAllPending (stepBody l s).2).2.lastMessage true] else [])
            = true := by
          split <;> rfl
        have hBcnt : (if (completeAllPending (stepBody l s).2).2.hasMessage then
            [CB.message (completeAllPending (stepBody l s).2).2.lastMessage true]
            else []).countP isFinalMsgCB ≤ 1 := by
          split <;> simp [isFinalMsgCB, List.countP_cons]
        constructor
        · exact finalsLast_append_left _ _ hA hB
        · constructor
          · rw [List.countP_append]
            rw [noFinals_countP_zero _ hA]
            simpa using hBcnt
          · intro _; trivial
      · by_cases hi : l.type = "input_request"
        · have hstep : stepLine l s = StepRes.stopSuspended
              ((stepBody l s).1 ++
                ((stepBody l s).2.pendingTools.filter (fun id => id ≠ l.toolUseID)).map
                  (fun id => CB.toolResult id false) ++
                (flushBuffer { (stepBody l s).2 with
                  pendingTools :=
                    (stepBody l s).2.pendingTools.filter (fun id => id = l.toolUseID) }).1 ++
                [CB.inputRequest l.toolUseID])
              (flushBuffer { (stepBody l s).2 with
                pendingTools :=
                  (stepBody l s).2.pendingTools.filter (fun id => id = l.toolUseID) }).2 := by
            simp only [stepLine, if_neg hr, if_pos hi]
          simp only [readLoop, hstep]
          have hA : noFinals ((stepBody l s).1 ++
              ((stepBody l s).2.pendingTools.filter (fun id => id ≠ l.toolUseID)).map
                (fun id => CB.toolResult id false) ++
              (flushBuffer { (stepBody l s).2 with
                pendingTools :=
                  (stepBody l s).2.pendingTools.filter (fun id => id = l.toolUseID) }).1 ++
              [CB.inputRequest l.toolUseID]) = true := by
            simp only [noFinals_append, Bool.and_eq_true]
            exact ⟨⟨⟨stepBody_noFinals l s, map_toolResult_noFinals _⟩,
              flushBuffer_noFinals _⟩, by simp [noFinals, isFinalMsgCB]⟩
          refine ⟨noFinals_finalsLast _ hA, ?_, ?_⟩
          · rw [noFinals_countP_zero _ hA]
            omega
          · intro h
            rw [noFinals_countP_zero _ hA] at h
            omega
        · have hstep : stepLine l s = StepRes.next (stepBody l s).1 (stepBody l s).2 := by
            simp only [stepLine, if_neg hr, if_neg hi]
          simp only [readLoop, hstep]
          obtain ⟨ih1, ih2, ih3⟩ := ih f (stepBody l s).2
          refine ⟨finalsLast_append_left _ _ (stepBody_noFinals l s) ih1, ?_, ?_⟩
          · rw [List.countP_append, noFinals_countP_zero _ (stepBody_noFinals l s)]
            omega
          · intro h
            rw [List.countP_append, noFinals_countP_zero _ (stepBody_noFinals l s)] at h
            exact ih3 (by omega)

/-- C3: within any single `ReadResponses` call, the final message (`isFinal =
true`) is emitted at most once; when present it is the last callback of the
whole trace (hence after every non-final message of the call); and it is only
emitted when the call ends with the `result` event (outcome `completed`) —
never on suspension or error. -/
theorem c3_final_once_and_last (lines : List Line) (f : ProcFlags) (p : PState) :
    finalsLast (readResponses lines f p).trace = true
    ∧ (readResponses lines f p).trace.countP isFinalMsgCB ≤ 1
    ∧ (0 < (readResponses lines f p).trace.countP isFinalMsgCB →
        (readResponses lines f p).outcome = Outcome.completed) :=
  readLoop_finals lines f _

theorem contains_of_mem {seen : List String} {x : String} (h : x ∈ seen) :
    seen.contains x = true := by
  simpa using h

theorem collectTU_append (a b : List CB) :
    ∀ seen, collectTU (a ++ b) seen = collectTU b (collectTU a seen) := by
  induction a with
  | nil => intro seen; rfl
  | cons c a ih =>
      intro seen
      cases c <;> simp only [List.cons_append, collectTU, List.append_eq] <;> exact ih _

theorem resultsAnnounced_append (a b : List CB) :
    ∀ seen, resultsAnnounced (a ++ b) seen =
      (resultsAnnounced a seen && resultsAnnounced b (collectTU a seen)) := by
  induction a with
  | nil => intro seen; simp [resultsAnnounced, collectTU]
  | cons c a ih =>
      intro seen
      cases c <;>
        simp only [List.cons_append, resultsAnnounced, collectTU, List.append_eq, ih,
          Bool.and_assoc]

theorem mem_collectTU (a : List CB) :
    ∀ (seen : List String) (x : String), x ∈ seen → x ∈ collectTU a seen := by
  induction a with
  | nil => intro seen x hx; exact hx
  | cons c a ih =>
      intro seen x hx
      cases c <;> simp only [collectTU] <;>
        first
          | exact ih _ _ hx
          | exact ih _ _ (List.mem_cons_of_mem _ hx)

theorem map_toolResult_ann (L : List String) :
    ∀ seen, (∀ x ∈ L, x ∈ seen) →
      resultsAnnounced (L.map (fun i => CB.toolResult i false)) seen = true ∧
      collectTU (L.map (fun i => CB.toolResult i false)) seen = seen := by
  induction L with
  | nil => intro seen _; exact ⟨rfl, rfl⟩
  | cons i L ih =>
      intro seen hsub
      obtain ⟨h1, h2⟩ := ih seen (fun x hx => hsub x (List.mem_cons_of_mem _ hx))
      simp only [List.map_cons, resultsAnnounced, collectTU]
      exact ⟨by rw [h1, contains_of_mem (hsub i (List.mem_cons_self _ _))]; rfl, h2⟩

theorem completeAllPending_ann (s : RState) (seen : List String)
    (hsub : ∀ x ∈ s.pendingTools, x ∈ seen) :
    resultsAnnounced (completeAllPending s).1 seen = true ∧
    collectTU (completeAllPending s).1 seen = seen :=
  map_toolResult_ann s.pendingTools seen hsub

theorem flushBuffer_ann (s : RState) (seen : List String) :
    resultsAnnounced (flushBuffer s).1 seen = true ∧
    collectTU (flushBuffer s).1 seen = seen := by
  unfold flushBuffer; split <;> exact ⟨rfl, rfl⟩

theorem completeTool_ann (t : String) (e : Bool) (s : RState) (seen : List String)
    (hsub : ∀ x ∈ s.pendingTools, x ∈ seen) :
    resultsAnnounced (completeTool t e s).1 seen = true ∧
    collectTU (completeTool t e s).1 seen = seen ∧
    (∀ x ∈ (completeTool t e s).2.pendingTools, x ∈ seen) := by
  unfold completeTool
  split
  case isTrue h =>
    refine ⟨?_, rfl, fun x hx => hsub x (List.mem_of_mem_erase hx)⟩
    show (seen.contains t && resultsAnnounced [] seen) = true
    rw [contains_of_mem (hsub t h)]
    rfl
  case isFalse h => exact ⟨rfl, rfl, hsub⟩

theorem todoCallbacks_ann (c : ContentBlock) (seen : List String) :
    resultsAnnounced (todoCallbacks c) seen = true ∧
    collectTU (todoCallbacks c) seen = seen := by
  unfold todoCallbacks
  split
  · split <;> exact ⟨rfl, rfl⟩
  · exact ⟨rfl, rfl⟩

theorem ann_singleton_toolUse (i n : String) (inp : List (String × JVal))
    (seen : List String) :
    resultsAnnounced [CB.toolUse i n inp] seen = true := rfl

theorem collectTU_singleton_toolUse (i n : String) (inp : List (String × JVal))
    (seen : List String) :
    collectTU [CB.toolUse i n inp] seen = i :: seen := rfl

theorem procTexts_ann (ts : List String) :
    ∀ (s : RState) (seen : List String), (∀ x ∈ s.pendingTools, x ∈ seen) →
      resultsAnnounced (procTexts ts s).1 seen = true ∧
      collectTU (procTexts ts s).1 seen = seen ∧
      (∀ x ∈ (procTexts ts s).2.pendingTools, x ∈ seen) := by
  induction ts with
  | nil => intro s seen hsub; exact ⟨rfl, rfl, hsub⟩
  | cons t ts ih =>
      intro s seen hsub
      simp only [procTexts]
      obtain ⟨hc1, hc2⟩ := completeAllPending_ann s seen hsub
      obtain ⟨hf1, hf2⟩ := flushBuffer_ann (completeAllPending s).2 seen
      obtain ⟨hr1, hr2, hr3⟩ := ih {
        lastMessage := t,
        hasMessage := true,
        pendingTools := (flushBuffer (completeAllPending s).2).2.pendingTools,
        proc := (flushBuffer (completeAllPending s).2).2.proc } seen (by simp)
      simp only [resultsAnnounced_append, collectTU_append, hc1, hc2, hf1, hf2]
      simp only [hr1, hr2, Bool.and_self]
      exact ⟨trivial, trivial, hr3⟩

theorem procTools_ann (cs : List ContentBlock) :
    ∀ (s : RState) (seen : List String), (∀ x ∈ s.pendingTools, x ∈ seen) →
      resultsAnnounced (procTools cs s).1 seen = true ∧
      (∀ x ∈ (procTools cs s).2.pendingTools, x ∈ collectTU (procTools cs s).1 seen) := by
  induction cs with
  | nil => intro s seen hsub; exact ⟨rfl, hsub⟩
  | cons c cs ih =>
      intro s seen hsub
      simp only [procTools]
      obtain ⟨hc1, hc2⟩ := completeAllPending_ann s seen hsub
      obtain ⟨hf1, hf2⟩ := flushBuffer_ann (completeAllPending s).2 seen
      obtain ⟨ht1, ht2⟩ := todoCallbacks_ann c seen
      have hs3 : ∀ x ∈ (insertPending c.id
          (flushBuffer (completeAllPending s).2).2.pendingTools), x ∈ c.id :: seen := by
        intro x hx
        have he : (insertPending c.id
            (flushBuffer (completeAllPending s).2).2.pendingTools) = [c.id] := by
          simp [insertPending]
        rw [he] at hx
        simp only [List.mem_singleton] at hx
        simp [hx]
      obtain ⟨hr1, hr2⟩ := ih {
        lastMessage := (flushBuffer (completeAllPending s).2).2.lastMessage,
        hasMessage := (flushBuffer (completeAllPending s).2).2.hasMessage,
        pendingTools :=
          insertPending c.id (flushBuffer (completeAllPending s).2).2.pendingTools,
        proc := (flushBuffer (completeAllPending s).2).2.proc } (c.id :: seen) hs3
      simp only [resultsAnnounced_append, collectTU_append, hc1, hc2, hf1, hf2, ht1, ht2,
        ann_singleton_toolUse, collectTU_singleton_toolUse]
      simp only [hr1, Bool.and_self]
      exact ⟨trivial, hr2⟩

theorem procUserContents_ann (cs : List ContentBlock) :
    ∀ (topErr : String) (s : RState) (seen : List String),
      (∀ x ∈ s.pendingTools, x ∈ seen) →
      resultsAnnounced (procUserContents cs topErr s).1 seen = true ∧
      collectTU (procUserContents cs topErr s).1 seen = seen ∧
      (∀ x ∈ (procUserContents cs topErr s).2.pendingTools, x ∈ seen) := by
  induction cs with
  | nil => intro _ s seen hsub; exact ⟨rfl, rfl, hsub⟩
  | cons c cs ih =>
      intro topErr s seen hsub
      simp only [procUserContents]
      split
      · obtain ⟨h1, h2, h3⟩ := completeTool_ann c.toolUseID true s seen hsub
        have hE1 : ∀ em : String, resultsAnnounced
            (if em = "" then [] else [CB.toolError c.toolUseID em]) seen = true := by
          intro em; split <;> rfl
        have hE2 : ∀ em : String, collectTU
            (if em = "" then [] else [CB.toolError c.toolUseID em]) seen = seen := by
          intro em; split <;> rfl
        obtain ⟨hr1, hr2, hr3⟩ := ih topErr (completeTool c.toolUseID true s).2 seen h3
        simp only [resultsAnnounced_append, collectTU_append, h1, h2,
          hE1 (if c.content = "" then topErr else c.content),
          hE2 (if c.content = "" then topErr else c.content)]
        simp only [hr1, hr2, Bool.and_self]
        exact ⟨trivial, trivial, hr3⟩
      · exact ih topErr s seen hsub

theorem stepBody_ann (l : Line) (s : RState) (seen : List String)
    (hsub : ∀ x ∈ s.pendingTools, x ∈ seen) :
    resultsAnnounced (stepBody l s).1 seen = true ∧
    (∀ x ∈ (stepBody l s).2.pendingTools, x ∈ collectTU (stepBody l s).1 seen) := by
  simp only [stepBody]
  obtain ⟨hg1, hg2, hg3⟩ : resultsAnnounced (genericToolResultCheck l s).1 seen = true ∧
      collectTU (genericToolResultCheck l s).1 seen = seen ∧
      (∀ x ∈ (genericToolResultCheck l s).2.pendingTools, x ∈ seen) := by
    unfold genericToolResultCheck
    split
    · exact ⟨rfl, rfl, hsub⟩
    · exact completeTool_ann _ _ _ _ hsub
  have hsub2 : ∀ x ∈ (initCapture l (genericToolResultCheck l s).2).pendingTools,
      x ∈ seen := by
    rw [initCapture_pending]; exact hg3
  obtain ⟨hu1, hu2, hu3⟩ : resultsAnnounced
        (userPass l (initCapture l (genericToolResultCheck l s).2)).1 seen = true ∧
      collectTU (userPass l (initCapture l (genericToolResultCheck l s).2)).1 seen = seen ∧
      (∀ x ∈ (userPass l (initCapture l (genericToolResultCheck l s).2)).2.pendingTools,
        x ∈ seen) := by
    unfold userPass
    split
    · exact procUserContents_ann _ _ _ _ hsub2
    · exact ⟨rfl, rfl, hsub2⟩
  obtain ⟨ha1, ha2⟩ : resultsAnnounced (assistantPass l
        (userPass l (initCapture l (genericToolResultCheck l s).2)).2).1 seen = true ∧
      (∀ x ∈ (assistantPass l
          (userPass l (initCapture l (genericToolResultCheck l s).2)).2).2.pendingTools,
        x ∈ collectTU (assistantPass l
          (userPass l (initCapture l (genericToolResultCheck l s).2)).2).1 seen) := by
    unfold assistantPass
    split
    · obtain ⟨ht1, ht2, ht3⟩ := procTexts_ann (assistantTexts l) _ seen hu3
      obtain ⟨hp1, hp2⟩ := procTools_ann (assistantTools l) _ seen ht3
      simp only [resultsAnnounced_append, collectTU_append, ht1, ht2]
      simp only [hp1, Bool.and_self]
      exact ⟨trivial, hp2⟩
    · exact ⟨rfl, fun x hx => mem_collectTU _ _ _ (hu3 x hx)⟩
  simp only [resultsAnnounced_append, collectTU_append, hg1, hg2, hu1, hu2]
  simp only [ha1, Bool.and_self]
  exact ⟨trivial, ha2⟩

theorem readLoop_ann (ls : List Line) :
    ∀ (f : ProcFlags) (s : RState) (seen : List String),
      (∀ x ∈ s.pendingTools, x ∈ seen) →
      resultsAnnounced (readLoop ls f s).trace seen = true := by
  induction ls with
  | nil => intro f s seen _; rfl
  | cons l ls ih =>
      intro f s seen hsub
      obtain ⟨hb1, hb2⟩ := stepBody_ann l s seen hsub
      by_cases hr : l.type = "result"
      · have hstep : stepLine l s = StepRes.stopCompleted
            ((stepBody l s).1 ++ (completeAllPending (stepBody l s).2).1 ++
              (if l.permissionDenials = [] then []
                else [CB.permissionDenial l.permissionDenials]) ++
              (if (completeAllPending (stepBody l s).2).2.hasMessage then
                [CB.message (completeAllPending (stepBody l s).2).2.lastMessage true] else []))
            (completeAllPending (stepBody l s).2).2 := by
          simp only [stepLine, if_pos hr]
        simp only [readLoop, hstep]
        obtain ⟨hc1, hc2⟩ := completeAllPending_ann (stepBody l s).2
          (collectTU (stepBody l s).1 seen) hb2
        have h61 : resultsAnnounced
            (if l.permissionDenials = [] then []
              else [CB.permissionDenial l.permissionDenials])
            (collectTU (stepBody l s).1 seen) = true := by
          split <;> rfl
        have h62 : collectTU (if l.permissionDenials = [] then []
            else [CB.permissionDenial l.permissionDenials])
            (collectTU (stepBody l s).1 seen) = collectTU (stepBody l s).1 seen := by
          split <;> rfl
        have h7 : resultsAnnounced
            (if (completeAllPending (stepBody l s).2).2.hasMessage then
              [CB.message (completeAllPending (stepBody l s).2).2.lastMessage true]
              else []) (collectTU (stepBody l s).1 seen) = true := by
          split <;> rfl
        simp only [resultsAnnounced_append, collectTU_append, hb1, hc1, hc2, h61, h62, h7]
        simp
      · by_cases hi : l.type = "input_request"
        · have hstep : stepLine l s = StepRes.stopSuspended
              ((stepBody l s).1 ++
                ((stepBody l s).2.pendingTools.filter (fun id => id ≠ l.toolUseID)).map
                  (fun id => CB.toolResult id false) ++
                (flushBuffer { (stepBody l s).2 with
                  pendingTools :=
                    (stepBody l s).2.pendingTools.filter (fun id => id = l.toolUseID) }).1 ++
                [CB.inputRequest l.toolUseID])
              (flushBuffer { (stepBody l s).2 with
                pendingTools :=
                  (stepBody l s).2.pendingTools.filter (fun id => id = l.toolUseID) }).2 := by
            simp only [stepLine, if_neg hr, if_pos hi]
          simp only [readLoop, hstep]
          obtain ⟨hc1, hc2⟩ := map_toolResult_ann
            ((stepBody l s).2.pendingTools.filter (fun id => id ≠ l.toolUseID))
            (collectTU (stepBody l s).1 seen)
            (fun x hx => hb2 x (List.mem_of_mem_filter hx))
          obtain ⟨hf1, hf2⟩ := flushBuffer_ann { (stepBody l s).2 with
            pendingTools :=
              (stepBody l s).2.pendingTools.filter (fun id => id = l.toolUseID) }
            (collectTU (stepBody l s).1 seen)
          simp only [resultsAnnounced_append, collectTU_append, hb1, hc1, hc2, hf1, hf2]
          simp [resultsAnnounced]
        · have hstep : stepLine l s = StepRes.next (stepBody l s).1 (stepBody l s).2 := by
            simp only [stepLine, if_neg hr, if_neg hi]
          simp only [readLoop, hstep]
          rw [resultsAnnounced_append, hb1]
          rw [ih f (stepBody l s).2 (collectTU (stepBody l s).1 seen) hb2]
          simp

theorem noToolUses_append (a b : List CB) :
    noToolUses (a ++ b) = (noToolUses a && noToolUses b) := by
  simp [noToolUses, List.all_append]

theorem noMessages_append (a b : List CB) :
    noMessages (a ++ b) = (noMessages a && noMessages b) := by
  simp [noMessages, List.all_append]

theorem map_toolResult_noToolUses (L : List String) :
    noToolUses (L.map (fun i => CB.toolResult i false)) = true := by
  unfold noToolUses
  simp only [List.all_eq_true]
  intro x hx
  obtain ⟨i, -, rfl⟩ := List.mem_map.mp hx
  rfl

theorem map_toolResult_noMessages (L : List String) :
    noMessages (L.map (fun i => CB.toolResult i false)) = true := by
  unfold noMessages
  simp only [List.all_eq_true]
  intro x hx
  obtain ⟨i, -, rfl⟩ := List.mem_map.mp hx
  rfl

theorem flushBuffer_noToolUses (s : RState) : noToolUses (flushBuffer s).1 = true := by
  unfold flushBuffer; split <;> simp [noToolUses, isToolUseCB]

theorem todoCallbacks_noToolUses (c : ContentBlock) :
    noToolUses (todoCallbacks c) = true := by
  unfold todoCallbacks
  split
  · split <;> simp [noToolUses, isToolUseCB]
  · simp [noToolUses]

theorem todoCallbacks_noMessages (c : ContentBlock) :
    noMessages (todoCallbacks c) = true := by
  unfold todoCallbacks
  split
  · split <;> simp [noMessages, isMessageCB]
  · simp [noMessages]

theorem genericToolResultCheck_noToolUses (l : Line) (s : RState) :
    noToolUses (genericToolResultCheck l s).1 = true := by
  unfold genericToolResultCheck completeTool
  split
  · rfl
  · split <;> simp [noToolUses, isToolUseCB]

theorem procTexts_noToolUses (ts : List String) :
    ∀ s : RState, noToolUses (procTexts ts s).1 = true := by
  induction ts with
  | nil => intro s; rfl
  | cons t ts ih =>
      intro s
      simp only [procTexts, noToolUses_append, Bool.and_eq_true]
      exact ⟨⟨map_toolResult_noToolUses _, flushBuffer_noToolUses _⟩, ih _⟩

@[simp]
theorem flushBuffer_hasMessage (s : RState) : (flushBuffer s).2.hasMessage = false := by
  unfold flushBuffer
  split
  · rfl
  case isFalse h => exact Bool.eq_false_iff.mpr h

theorem flushBuffer_nil_of_no_message (s : RState) (h : s.hasMessage = false) :
    (flushBuffer s).1 = [] := by
  unfold flushBuffer
  rw [if_neg (by simp [h])]

theorem procTools_noMessages (cs : List ContentBlock) :
    ∀ s : RState, s.hasMessage = false → noMessages (procTools cs s).1 = true := by
  induction cs with
  | nil => intro s _; rfl
  | cons c cs ih =>
      intro s h
      simp only [procTools, noMessages_append, Bool.and_eq_true]
      refine ⟨⟨⟨⟨map_toolResult_noMessages _, ?_⟩, todoCallbacks_noMessages c⟩,
        by simp [noMessages, isMessageCB]⟩, ih _ (by simp)⟩
      rw [flushBuffer_nil_of_no_message _ (by exact h)]
      rfl

theorem noMsgAfterTool_append_left (a b : List CB) (ha : noToolUses a = true)
    (hb : noMsgAfterTool b = true) : noMsgAfterTool (a ++ b) = true := by
  induction a with
  | nil => simpa using hb
  | cons c a ih =>
      simp only [noToolUses, List.all_cons, Bool.and_eq_true] at ha
      simp only [List.cons_append, noMsgAfterTool]
      rw [if_neg (by simpa using ha.1)]
      exact ih ha.2

theorem noMsgAfterTool_toolUse_cons (c : CB) (b : List CB) (hc : isToolUseCB c = true)
    (hb : noMessages b = true) : noMsgAfterTool (c :: b) = true := by
  simp only [noMsgAfterTool, if_pos hc]
  simpa [noMessages] using hb

theorem procTools_noMsgAfterTool (cs : List ContentBlock) :
    ∀ s : RState, noMsgAfterTool (procTools cs s).1 = true := by
  induction cs with
  | nil => intro s; rfl
  | cons c cs ih =>
      intro s
      simp only [procTools]
      rw [List.append_assoc, List.singleton_append]
      refine noMsgAfterTool_append_left _ _ ?_ ?_
      · simp only [noToolUses_append, Bool.and_eq_true]
        exact ⟨⟨map_toolResult_noToolUses _, flushBuffer_noToolUses _⟩,
          todoCallbacks_noToolUses c⟩
      · exact noMsgAfterTool_toolUse_cons _ _ rfl (procTools_noMessages cs _ (by simp))

theorem procTexts_flushes (ts : List String) :
    ∀ s : RState, ts ≠ [] → s.hasMessage = true →
      CB.message s.lastMessage false ∈ (procTexts ts s).1 := by
  induction ts with
  | nil => intro s h _; exact absurd rfl h
  | cons t ts _ =>
      intro s _ hmsg
      simp only [procTexts]
      have hfl : (flushBuffer (completeAllPending s).2).1 =
          [CB.message s.lastMessage false] := by
        unfold flushBuffer
        rw [if_pos (by exact hmsg)]
        rfl
      refine List.mem_append.mpr (Or.inl (List.mem_append.mpr (Or.inr ?_)))
      rw [hfl]
      exact List.mem_singleton.mpr rfl

theorem procTexts_mem (ts : List String) :
    ∀ (s : RState) (t : String), t ∈ ts →
      CB.message t false ∈ (procTexts ts s).1 ∨
      ((procTexts ts s).2.hasMessage = true ∧ (procTexts ts s).2.lastMessage = t) := by
  induction ts with
  | nil => intro s t h; exact absurd h (List.not_mem_nil t)
  | cons th ts ih =>
      intro s t hmem
      rcases List.mem_cons.mp hmem with heq | htail
      · subst heq
        by_cases hts : ts = []
        · subst hts
          right
          simp only [procTexts]
          exact ⟨by simp, by simp⟩
        · left
          simp only [procTexts]
          refine List.mem_append.mpr (Or.inr ?_)
          exact procTexts_flushes ts _ hts rfl
      · simp only [procTexts]
        rcases ih {
            lastMessage := th,
            hasMessage := true,
            pendingTools := (flushBuffer (completeAllPending s).2).2.pendingTools,
            proc := (flushBuffer (completeAllPending s).2).2.proc } t htail with h | h
        · left
          exact List.mem_append.mpr (Or.inr h)
        · right
          exact h

theorem procTools_flushes (c : ContentBlock) (cs : List ContentBlock) (s : RState)
    (hmsg : s.hasMessage = true) :
    CB.message s.lastMessage false ∈ (procTools (c :: cs) s).1 := by
  simp only [procTools]
  have hfl : (flushBuffer (completeAllPending s).2).1 =
      [CB.message s.lastMessage false] := by
    unfold flushBuffer
    rw [if_pos (by exact hmsg)]
    rfl
  refine List.mem_append.mpr (Or.inl (List.mem_append.mpr (Or.inl
    (List.mem_append.mpr (Or.inl (List.mem_append.mpr (Or.inr ?_)))))))
  rw [hfl]
  exact List.mem_singleton.mpr rfl

theorem procTools_mem_toolUse (cs : List ContentBlock) :
    ∀ (s : RState) (c : ContentBlock), c ∈ cs →
      CB.toolUse c.id c.name c.input ∈ (procTools cs s).1 := by
  induction cs with
  | nil => intro s c h; exact absurd h (List.not_mem_nil c)
  | cons ch cs ih =>
      intro s c hmem
      simp only [procTools]
      rcases List.mem_cons.mp hmem with heq | htail
      · subst heq
        refine List.mem_append.mpr (Or.inl (List.mem_append.mpr (Or.inr ?_)))
        exact List.mem_singleton.mpr rfl
      · exact List.mem_append.mpr (Or.inr (ih _ c htail))

/-- C2: when a single assistant protocol line carries both (non-empty) text
content blocks and (named) tool_use content blocks, the callbacks emitted
while processing that line deliver every text of the line as an `OnMessage`
invocation, every tool_use block as an `OnToolUse` invocation, and no
`OnMessage` invocation occurs after any `OnToolUse` invocation — the line's
text always reaches the callback surface strictly before the line's tool-use
events, regardless of the order of the blocks inside the line. -/
theorem c2_text_before_tools (l : Line) (s : RState)
    (htype : l.type = "assistant")
    (htexts : assistantTexts l ≠ [])
    (htools : assistantTools l ≠ []) :
    noMsgAfterTool (stepLine l s).out = true
    ∧ (∀ t ∈ assistantTexts l, CB.message t false ∈ (stepLine l s).out)
    ∧ (∀ c ∈ assistantTools l, CB.toolUse c.id c.name c.input ∈ (stepLine l s).out) := by
  have hr : ¬l.type = "result" := by rw [htype]; decide
  have hi : ¬l.type = "input_request" := by rw [htype]; decide
  have hu : ¬l.type = "user" := by rw [htype]; decide
  have hstep : stepLine l s = StepRes.next (stepBody l s).1 (stepBody l s).2 := by
    simp only [stepLine, if_neg hr, if_neg hi]
  rw [hstep]
  show noMsgAfterTool (stepBody l s).1 = true ∧ _ ∧ _
  have hbody : (stepBody l s).1 =
      ((genericToolResultCheck l s).1 ++ ([] : List CB)) ++
      ((procTexts (assistantTexts l)
          (userPass l (initCapture l (genericToolResultCheck l s).2)).2).1 ++
        (procTools (assistantTools l)
          (procTexts (assistantTexts l)
            (userPass l (initCapture l (genericToolResultCheck l s).2)).2).2).1) := by
    simp only [stepBody, userPass, assistantPass, if_neg hu, if_pos htype]
  rw [hbody]
  obtain ⟨c0, cs0, hcons⟩ := List.exists_cons_of_ne_nil htools
  refine ⟨?_, ?_, ?_⟩
  · refine noMsgAfterTool_append_left _ _ ?_ ?_
    · simp only [noToolUses_append, Bool.and_eq_true]
      exact ⟨genericToolResultCheck_noToolUses l s, rfl⟩
    · refine noMsgAfterTool_append_left _ _ (procTexts_noToolUses _ _) ?_
      exact procTools_noMsgAfterTool _ _
  · intro t ht
    refine List.mem_append.mpr (Or.inr ?_)
    rcases procTexts_mem (assistantTexts l)
        (userPass l (initCapture l (genericToolResultCheck l s).2)).2 t ht with h | h
    · exact List.mem_append.mpr (Or.inl h)
    · refine List.mem_append.mpr (Or.inr ?_)
      rw [hcons]
      have := procTools_flushes c0 cs0
        (procTexts (assistantTexts l)
          (userPass l (initCapture l (genericToolResultCheck l s).2)).2).2 h.1
      rwa [h.2] at this
  · intro c hc
    refine List.mem_append.mpr (Or.inr (List.mem_append.mpr (Or.inr ?_)))
    exact procTools_mem_toolUse _ _ c hc

/-- Witness for `c2_text_before_tools`: a line with one text block and one
tool_use block, in tool-before-text order inside the line. -/
theorem c2_text_before_tools_witness :
    noMsgAfterTool (stepLine
      { type := "assistant", content :=
        [{ type := "tool_use", id := "t7", name := "Bash" },
         { type := "text", text := "hello" }] } {}).out = true
    ∧ CB.message "hello" false ∈ (stepLine
      { type := "assistant", content :=
        [{ type := "tool_use", id := "t7", name := "Bash" },
         { type := "text", text := "hello" }] } {}).out := by
  have h := c2_text_before_tools
    { type := "assistant", content :=
      [{ type := "tool_use", id := "t7", name := "Bash" },
       { type := "text", text := "hello" }] } {} rfl
    (fun habs => List.noConfusion habs) (fun habs => List.noConfusion habs)
  exact ⟨h.1, h.2.1 "hello" (List.mem_singleton.mpr rfl)⟩

/-- C10: during any single `ReadResponses` call, every `OnToolResult`
callback emitted carries a tool id announced by an earlier `OnToolUse`
callback of the same call — the pending set starts empty at each call, so no
completion is ever emitted for a tool not announced within that call. -/
theorem c10_results_announced (lines : List Line) (f : ProcFlags) (p : PState) :
    resultsAnnounced (readResponses lines f p).trace [] = true :=
  readLoop_ann lines f _ [] (by simp)

/-- C1 (amended): in a `ReadResponses` call that ends by observing a terminal
event (`result` or `input_request`), the completions and the announcements of
every non-empty tool identifier balance exactly: the number of `OnToolResult`
invocations for the identifier equals the number of `OnToolUse` invocations
for it — in particular, an identifier announced once is completed exactly
once, and never twice.  (The identifier `""` is excluded: see
`c1_counterexample`.) -/
theorem c1_completion_balance (lines : List Line) (f : ProcFlags) (p : PState)
    (id : String) (hid : id ≠ "")
    (hterm : (readResponses lines f p).outcome = Outcome.completed ∨
      (readResponses lines f p).outcome = Outcome.suspended) :
    cntTR (readResponses lines f p).trace id = cntTU (readResponses lines f p).trace id := by
  have h := readLoop_balance lines f
    { lastMessage := "", hasMessage := false, pendingTools := [], proc := p } id
    List.nodup_nil hid hterm
  simpa [readResponses] using h

theorem gocCount_append (a b : List Act) : gocCount (a ++ b) = gocCount a + gocCount b :=
  List.countP_append _ _ _

theorem oneAttempt_goc (a : AttemptSpec) (st : MState) :
    gocCount (oneAttempt a st).acts = 1 := by
  cases hlive : st.hasLiveProc <;> cases hco : a.createOk <;> cases hso : a.sendOk <;>
    cases hro : a.readOk <;> cases hsn : a.readSessionNotFound <;>
    by_cases hnew : a.newSessionID = "" <;>
    simp [oneAttempt, sendPhase, readPhase, hlive, hco, hso, hro, hsn, hnew, gocCount,
      List.countP_append, List.countP_cons]

theorem sendWithRetry_goc_zero (specs : List AttemptSpec) (st : MState) :
    gocCount (sendWithRetry 0 specs st).acts ≤ 1 := by
  cases specs with
  | nil => simp [sendWithRetry, gocCount]
  | cons a rest =>
      rcases hf : (oneAttempt a st).failed with - | e <;>
        simp [sendWithRetry, hf, oneAttempt_goc]

theorem sendWithRetry_goc_one (specs : List AttemptSpec) (st : MState) :
    gocCount (sendWithRetry 1 specs st).acts ≤ 2 := by
  cases specs with
  | nil => simp [sendWithRetry, gocCount]
  | cons a rest =>
      rcases hf : (oneAttempt a st).failed with - | e
      · simp [sendWithRetry, hf, oneAttempt_goc]
      · by_cases he : e = SendOutcome.errCreate
        · simp [sendWithRetry, hf, he, oneAttempt_goc]
        · have hz := sendWithRetry_goc_zero rest (oneAttempt a st).st
          simp [sendWithRetry, hf, he, gocCount_append, oneAttempt_goc]
          omega

theorem oneAttempt_failure (a : AttemptSpec) (st : MState)
    (hgoc : st.hasLiveProc = true ∨ a.createOk = true)
    (hfail : a.sendOk = false ∨ a.readOk = false) :
    ∃ e, (oneAttempt a st).failed = some e ∧ e ≠ SendOutcome.errCreate
      ∧ Act.evict ∈ (oneAttempt a st).acts
      ∧ (oneAttempt a st).st.hasLiveProc = false := by
  cases hlive : st.hasLiveProc <;> cases hco : a.createOk <;> cases hso : a.sendOk <;>
    cases hro : a.readOk <;> cases hsn : a.readSessionNotFound <;>
    simp_all [oneAttempt, sendPhase, readPhase]

theorem attempt_zero_props (a : AttemptSpec) (st : MState) (hl : st.hasLiveProc = false) :
    gocCount (sendWithRetry 0 [a] st).acts = 1
    ∧ (sendWithRetry 0 [a] st).outcome = attemptOutcome a := by
  refine ⟨?_, ?_⟩
  · rcases hf : (oneAttempt a st).failed with - | e <;>
      simp [sendWithRetry, hf, oneAttempt_goc]
  · cases hco : a.createOk <;> cases hso : a.sendOk <;> cases hro : a.readOk <;>
      cases hsn : a.readSessionNotFound <;> by_cases hnew : a.newSessionID = "" <;>
      simp [sendWithRetry, oneAttempt, sendPhase, readPhase, attemptOutcome, hl, hco,
        hso, hro, hsn, hnew]

theorem oneAttempt_stale (a : AttemptSpec) (st : MState)
    (hgoc : st.hasLiveProc = true ∨ a.createOk = true)
    (hso : a.sendOk = true) (hro : a.readOk = false)
    (hsn : a.readSessionNotFound = true) :
    (oneAttempt a st).acts =
      (if st.hasLiveProc then [Act.reuse] else [Act.spawn (st.persisted.getD "")]) ++
        [Act.evict, Act.persistDelete]
    ∧ (oneAttempt a st).st = { hasLiveProc := false, persisted := none }
    ∧ (oneAttempt a st).failed = some SendOutcome.errRead := by
  cases hlive : st.hasLiveProc <;> cases hco : a.createOk <;>
    simp_all [oneAttempt, sendPhase, readPhase]

theorem attempt_zero_spawn_fresh (a : AttemptSpec) (st : MState)
    (hl : st.hasLiveProc = false) (hp : st.persisted = none) :
    ∃ rest : List Act, (sendWithRetry 0 [a] st).acts = Act.spawn "" :: rest := by
  have hacts : ∃ tail, (oneAttempt a st).acts = Act.spawn "" :: tail := by
    cases hco : a.createOk <;> cases hso : a.sendOk <;> cases hro : a.readOk <;>
      cases hsn : a.readSessionNotFound <;> by_cases hnew : a.newSessionID = "" <;>
      simp [oneAttempt, sendPhase, readPhase, hl, hp, hco, hso, hro, hsn, hnew]
  obtain ⟨tail, htail⟩ := hacts
  rcases hf : (oneAttempt a st).failed with - | e <;>
    simp [sendWithRetry, hf, htail]

/-- C5: `ProcessManager.Send` never makes more than two end-to-end attempts;
when the first attempt's `Send` or `ReadResponses` fails (after a successful
`GetOrCreate`), the session is evicted and the exchange is retried exactly
once end-to-end, and the outcome surfaced to the caller is exactly the
outcome of that single retry (its error when it fails). -/
theorem c5_retry_once :
    (∀ (specs : List AttemptSpec) (st : MState),
      gocCount (mgrSend specs st).acts ≤ 2)
    ∧ (∀ (a1 a2 : AttemptSpec) (st : MState),
        (st.hasLiveProc = true ∨ a1.createOk = true) →
        (a1.sendOk = false ∨ a1.readOk = false) →
        gocCount (mgrSend [a1, a2] st).acts = 2
        ∧ Act.evict ∈ (mgrSend [a1, a2] st).acts
        ∧ (mgrSend [a1, a2] st).outcome = attemptOutcome a2) := by
  constructor
  · intro specs st
    exact sendWithRetry_goc_one specs st
  · intro a1 a2 st hgoc hfail
    obtain ⟨e, hf, he, hevict, hlive⟩ := oneAttempt_failure a1 st hgoc hfail
    obtain ⟨hz1, hz2⟩ := attempt_zero_props a2 (oneAttempt a1 st).st hlive
    refine ⟨?_, ?_, ?_⟩
    · show gocCount (sendWithRetry 1 [a1, a2] st).acts = 2
      unfold sendWithRetry
      simp only [hf]
      rw [if_neg he]
      show gocCount ((oneAttempt a1 st).acts ++
        (sendWithRetry 0 [a2] (oneAttempt a1 st).st).acts) = 2
      rw [gocCount_append, oneAttempt_goc, hz1]
    · show Act.evict ∈ (sendWithRetry 1 [a1, a2] st).acts
      unfold sendWithRetry
      simp only [hf]
      rw [if_neg he]
      show Act.evict ∈ (oneAttempt a1 st).acts ++
        (sendWithRetry 0 [a2] (oneAttempt a1 st).st).acts
      exact List.mem_append.mpr (Or.inl hevict)
    · show (sendWithRetry 1 [a1, a2] st).outcome = attemptOutcome a2
      unfold sendWithRetry
      simp only [hf]
      rw [if_neg he]
      show (sendWithRetry 0 [a2] (oneAttempt a1 st).st).outcome = attemptOutcome a2
      exact hz2

/-- Witness for `c5_retry_once`: a first attempt whose read fails, followed by
a fully successful retry. -/
theorem c5_retry_once_witness :
    gocCount (mgrSend [{ readOk := false }, {}] {}).acts = 2
    ∧ Act.evict ∈ (mgrSend [{ readOk := false }, {}] {}).acts
    ∧ (mgrSend [{ readOk := false }, {}] {}).outcome = attemptOutcome {} :=
  c5_retry_once.2 { readOk := false } {} {} (Or.inr rfl) (Or.inr rfl)

/-- C6: when `ReadResponses` fails and the failure is classified stale-session
(the stderr watcher saw `No conversation found with session ID` — modelled by
the attempt's `readSessionNotFound` flag), `ProcessManager.Send` evicts the
session and deletes the persisted mapping before retrying, and the single
end-to-end retry performs its `GetOrCreate` with an empty resume hint — a
fresh session, not another resume of the stale identifier. -/
theorem c6_stale_purge (a1 a2 : AttemptSpec) (st : MState)
    (hgoc : st.hasLiveProc = true ∨ a1.createOk = true)
    (hso : a1.sendOk = true) (hro : a1.readOk = false)
    (hsn : a1.readSessionNotFound = true) :
    ∃ tail : List Act, (mgrSend [a1, a2] st).acts =
      (if st.hasLiveProc then [Act.reuse] else [Act.spawn (st.persisted.getD "")]) ++
      [Act.evict, Act.persistDelete, Act.spawn ""] ++ tail := by
  obtain ⟨hacts, hst, hf⟩ := oneAttempt_stale a1 st hgoc hso hro hsn
  obtain ⟨rest, hrest⟩ := attempt_zero_spawn_fresh a2
    { hasLiveProc := false, persisted := none } rfl rfl
  refine ⟨rest, ?_⟩
  show (sendWithRetry 1 [a1, a2] st).acts = _
  unfold sendWithRetry
  simp only [hf]
  rw [if_neg (by intro h; exact SendOutcome.noConfusion h)]
  show (oneAttempt a1 st).acts ++ (sendWithRetry 0 [a2] (oneAttempt a1 st).st).acts = _
  rw [hacts, hst, hrest]
  simp

/-- Witness for `c6_stale_purge`: stale-session read failure with an empty
registry and a persisted mapping; the retry spawns fresh. -/
theorem c6_stale_purge_witness :
    ∃ tail : List Act,
      (mgrSend [{ readOk := false, readSessionNotFound := true }, {}]
        { persisted := some "sess-1" }).acts =
      (if ({ persisted := some "sess-1" } : MState).hasLiveProc then [Act.reuse]
        else [Act.spawn (({ persisted := some "sess-1" } : MState).persisted.getD "")]) ++
      [Act.evict, Act.persistDelete, Act.spawn ""] ++ tail :=
  c6_stale_purge { readOk := false, readSessionNotFound := true } {}
    { persisted := some "sess-1" } (Or.inr rfl) rfl rfl rfl

/-- C7: a permission request that receives no decision within the wait budget
resolves through the timer arm of the select: the handler returns a deny
decision with the timeout-specific message `Permission request timed out` and
the pending-permission state is cleared; a decision delivered after the state
is cleared is answered `Permission request expired` and changes nothing (no
channel write, no crash, no second answer); and even in the race where the
pending entry is still visible but the capacity-1 response channel is already
occupied, the non-blocking send drops the decision and leaves the pending
state untouched.  The wait budget is 2 minutes. -/
theorem c7_permission_timeout :
    (∀ tracker : Option PendingPermission,
      resolveWait WaitArm.timeout tracker =
        (⟨"deny", [], "Permission request timed out"⟩, none))
    ∧ (∀ action : String,
        deliverDecision none action = ("Permission request expired", none))
    ∧ (∀ (pending : PendingPermission) (r0 : PermissionResult) (action : String),
        pending.response = some r0 →
        (deliverDecision (some pending) action).2 = some pending)
    ∧ permissionTimeoutMinutes = 2 := by
  refine ⟨fun tracker => rfl, fun action => rfl, ?_, rfl⟩
  intro pending r0 action hr
  unfold deliverDecision
  cases hmk : mkPermissionResult action pending <;> simp only [hmk, hr]

/-- Witness for `c7_permission_timeout`: a pending permission whose channel
already holds a decision is left untouched by a second delivery. -/
theorem c7_permission_timeout_witness :
    (deliverDecision
      (some { response := some ⟨"deny", [], "User denied permission"⟩ }) "a").2 =
    some { response := some ⟨"deny", [], "User denied permission"⟩ } :=
  c7_permission_timeout.2.2.1 { response := some ⟨"deny", [], "User denied permission"⟩ }
    ⟨"deny", [], "User denied permission"⟩ "a" rfl

theorem insertAssoc_append (m : List (Int × SessionMapping)) (k : Int) (v : SessionMapping)
    (hk : k ∉ m.map (fun kv => kv.1)) : insertAssoc m k v = m ++ [(k, v)] := by
  induction m with
  | nil => rfl
  | cons kv m ih =>
      simp only [List.map_cons, List.mem_cons, not_or] at hk
      simp only [insertAssoc]
      rw [if_neg (fun h => hk.1 h.symm), ih hk.2]
      rfl

theorem load_aux (doc : List SessionMapping) :
    ∀ acc : List (Int × SessionMapping),
      (acc.map (fun kv => kv.1) ++ doc.map (fun s => s.chatID)).Nodup →
      doc.foldl (fun m s => insertAssoc m s.chatID s) acc =
        acc ++ doc.map (fun s => (s.chatID, s)) := by
  induction doc with
  | nil => intro acc _; simp
  | cons s doc ih =>
      intro acc hnd
      have hk : s.chatID ∉ acc.map (fun kv => kv.1) := by
        intro hmem
        rw [List.nodup_append] at hnd
        exact hnd.2.2 hmem (by simp)
      have hnd2 : ((acc ++ [(s.chatID, s)]).map (fun kv => kv.1) ++
          doc.map (fun s => s.chatID)).Nodup := by
        have : (acc ++ [(s.chatID, s)]).map (fun kv => kv.1) ++
            doc.map (fun s => s.chatID) =
            acc.map (fun kv => kv.1) ++ (s.chatID :: doc.map (fun s => s.chatID)) := by
          simp
        rw [this]
        simpa using hnd
      simp only [List.foldl_cons]
      rw [insertAssoc_append acc s.chatID s hk, ih (acc ++ [(s.chatID, s)]) hnd2]
      simp

/-- C8: saving the in-memory session map to the document and loading the
document back yields the identical mapping for every conversation key — the
same session identifier, working directory and last-active timestamp (the
YAML byte round-trip is modelled as the identity on the document; timestamp
equality is at the model's resolution, the spec's "serialization
tolerance"). -/
theorem c8_save_load_roundtrip (m : List (Int × SessionMapping))
    (hwf : sessionsWF m) :
    ∀ k : Int, (loadSessions (saveSessions m)).lookup k = m.lookup k := by
  have hid : loadSessions (saveSessions m) = m := by
    unfold loadSessions saveSessions
    have hnd : (([] : List (Int × SessionMapping)).map (fun kv => kv.1) ++
        (m.map (fun kv => kv.2)).map (fun s => s.chatID)).Nodup := by
      simp only [List.map_nil, List.nil_append, List.map_map]
      have he : m.map ((fun s => s.chatID) ∘ (fun kv => kv.2)) =
          m.map (fun kv => kv.1) := by
        refine List.map_congr_left ?_
        intro kv hkv
        exact hwf.2 kv hkv
      rw [he]
      exact hwf.1
    rw [load_aux (m.map (fun kv => kv.2)) [] hnd]
    simp only [List.nil_append, List.map_map]
    have he2 : ∀ kv ∈ m, ((fun s => (s.chatID, s)) ∘ (fun kv => kv.2)) kv = kv := by
      intro kv hkv
      have h := hwf.2 kv hkv
      cases kv with
      | mk k v => simp only [Function.comp] at *; rw [h]
    rw [List.map_congr_left he2]
    exact List.map_id m
  intro k
  rw [hid]

/-- Witness for `c8_save_load_roundtrip`: a two-entry map with distinct chat
keys round-trips to the same mapping at key 5. -/
theorem c8_save_load_roundtrip_witness :
    (loadSessions (saveSessions
      [(5, { chatID := 5, sessionID := "s5", lastActive := 100, cwd := "/home/a" }),
       (7, { chatID := 7, sessionID := "s7", lastActive := 200 })])).lookup 5 =
    [(5, { chatID := 5, sessionID := "s5", lastActive := 100, cwd := "/home/a" }),
     (7, { chatID := 7, sessionID := "s7", lastActive := 200 })].lookup 5 :=
  c8_save_load_roundtrip
    [(5, { chatID := 5, sessionID := "s5", lastActive := 100, cwd := "/home/a" }),
     (7, { chatID := 7, sessionID := "s7", lastActive := 200 })]
    ⟨by decide, by decide⟩ 5

theorem threadStep_true (s : CState) : threadStep s true =
    (if s.pc1 = 0 then
      match s.reg with
      | some (p, PStatus.live) => { s with pc1 := 2, ret1 := some p }
      | _ => { s with pc1 := 1 }
    else if s.pc1 = 1 then
      match s.reg with
      | some (p, PStatus.live) => { s with pc1 := 2, ret1 := some p }
      | _ => { s with
                reg := some (1000 + s.spawned, PStatus.live),
                spawned := s.spawned + 1,
                pc1 := 2,
                ret1 := some (1000 + s.spawned) }
    else s) := rfl

theorem threadStep_false (s : CState) : threadStep s false =
    (if s.pc2 = 0 then
      match s.reg with
      | some (p, PStatus.live) => { s with pc2 := 2, ret2 := some p }
      | _ => { s with pc2 := 1 }
    else if s.pc2 = 1 then
      match s.reg with
      | some (p, PStatus.live) => { s with pc2 := 2, ret2 := some p }
      | _ => { s with
                reg := some (1000 + s.spawned, PStatus.live),
                spawned := s.spawned + 1,
                pc2 := 2,
                ret2 := some (1000 + s.spawned) }
    else s) := rfl

theorem c9Inv_step (s : CState) (c : Bool) (h : c9Inv s) : c9Inv (threadStep s c) := by
  obtain ⟨hA, hB, hC, hD, hE, hF⟩ := h
  cases c
  case false =>
    rw [threadStep_false]
    by_cases h0 : s.pc2 = 0
    · rw [if_pos h0]
      rcases hreg : s.reg with _ | ⟨q, qs⟩
      · refine ⟨hA, ?_, ?_, ?_, hE, fun h2 => by simp at h2⟩
        · intro h
          obtain ⟨q0, hq⟩ := hB h
          rw [hreg] at hq
          cases hq
        · intro p hp
          rw [hC p hp] at hreg
          cases hreg
        · intro p hp
          rw [hD p hp] at hreg
          cases hreg
      · cases qs
        · refine ⟨hA, fun h => ⟨q, rfl⟩, ?_, ?_, hE, fun h => ⟨q, rfl⟩⟩
          · intro p hp
            rw [hC p hp] at hreg
            exact hreg.symm
          · intro p hp
            cases hp
            rfl
        · refine ⟨hA, ?_, ?_, ?_, hE, fun h2 => by simp at h2⟩
          · intro h
            obtain ⟨q0, hq⟩ := hB h
            rw [hreg] at hq
            cases hq
          · intro p hp
            rw [hC p hp] at hreg
            cases hreg
          · intro p hp
            rw [hD p hp] at hreg
            cases hreg
    · rw [if_neg h0]
      by_cases h1 : s.pc2 = 1
      · rw [if_pos h1]
        rcases hreg : s.reg with _ | ⟨q, qs⟩
        · have hs0 : s.spawned = 0 := by
            rcases Nat.eq_zero_or_pos s.spawned with h | h
            · exact h
            · obtain ⟨q0, hq⟩ := hB h
              rw [hreg] at hq
              cases hq
          have hr1n : s.ret1 = none := by
            cases hret : s.ret1 with
            | none => rfl
            | some q0 => rw [hC q0 hret] at hreg; cases hreg
          refine ⟨by show s.spawned + 1 ≤ 1; omega, fun h => ⟨1000 + s.spawned, rfl⟩, ?_, ?_, hE,
            fun h => ⟨1000 + s.spawned, rfl⟩⟩
          · intro p hp
            rw [hr1n] at hp
            cases hp
          · intro p hp
            cases hp
            rfl
        · cases qs
          · refine ⟨hA, fun h => ⟨q, rfl⟩, ?_, ?_, hE, fun h => ⟨q, rfl⟩⟩
            · intro p hp
              rw [hC p hp] at hreg
              exact hreg.symm
            · intro p hp
              cases hp
              rfl
          · have hs0 : s.spawned = 0 := by
              rcases Nat.eq_zero_or_pos s.spawned with h | h
              · exact h
              · obtain ⟨q0, hq⟩ := hB h
                rw [hreg] at hq
                cases hq
            have hr1n : s.ret1 = none := by
              cases hret : s.ret1 with
              | none => rfl
              | some q0 => rw [hC q0 hret] at hreg; cases hreg
            refine ⟨by show s.spawned + 1 ≤ 1; omega, fun h => ⟨1000 + s.spawned, rfl⟩, ?_, ?_, hE,
              fun h => ⟨1000 + s.spawned, rfl⟩⟩
            · intro p hp
              rw [hr1n] at hp
              cases hp
            · intro p hp
              cases hp
              rfl
      · rw [if_neg h1]
        exact ⟨hA, hB, hC, hD, hE, hF⟩
  case true =>
    rw [threadStep_true]
    by_cases h0 : s.pc1 = 0
    · rw [if_pos h0]
      rcases hreg : s.reg with _ | ⟨q, qs⟩
      · refine ⟨hA, ?_, ?_, ?_, fun h2 => by simp at h2, hF⟩
        · intro h
          obtain ⟨q0, hq⟩ := hB h
          rw [hreg] at hq
          cases hq
        · intro p hp
          rw [hC p hp] at hreg
          cases hreg
        · intro p hp
          rw [hD p hp] at hreg
          cases hreg
      · cases qs
        · refine ⟨hA, fun h => ⟨q, rfl⟩, ?_, ?_, fun h => ⟨q, rfl⟩, hF⟩
          · intro p hp
            cases hp
            rfl
          · intro p hp
            rw [hD p hp] at hreg
            exact hreg.symm
        · refine ⟨hA, ?_, ?_, ?_, fun h2 => by simp at h2, hF⟩
          · intro h
            obtain ⟨q0, hq⟩ := hB h
            rw [hreg] at hq
            cases hq
          · intro p hp
            rw [hC p hp] at hreg
            cases hreg
          · intro p hp
            rw [hD p hp] at hreg
            cases hreg
    · rw [if_neg h0]
      by_cases h1 : s.pc1 = 1
      · rw [if_pos h1]
        rcases hreg : s.reg with _ | ⟨q, qs⟩
        · have hs0 : s.spawned = 0 := by
            rcases Nat.eq_zero_or_pos s.spawned with h | h
            · exact h
            · obtain ⟨q0, hq⟩ := hB h
              rw [hreg] at hq
              cases hq
          have hr2n : s.ret2 = none := by
            cases hret : s.ret2 with
            | none => rfl
            | some q0 => rw [hD q0 hret] at hreg; cases hreg
          refine ⟨by show s.spawned + 1 ≤ 1; omega, fun h => ⟨1000 + s.spawned, rfl⟩, ?_, ?_,
            fun h => ⟨1000 + s.spawned, rfl⟩, hF⟩
          · intro p hp
            cases hp
            rfl
          · intro p hp
            rw [hr2n] at hp
            cases hp
        · cases qs
          · refine ⟨hA, fun h => ⟨q, rfl⟩, ?_, ?_, fun h => ⟨q, rfl⟩, hF⟩
            · intro p hp
              cases hp
              rfl
            · intro p hp
              rw [hD p hp] at hreg
              exact hreg.symm
          · have hs0 : s.spawned = 0 := by
              rcases Nat.eq_zero_or_pos s.spawned with h | h
              · exact h
              · obtain ⟨q0, hq⟩ := hB h
                rw [hreg] at hq
                cases hq
            have hr2n : s.ret2 = none := by
              cases hret : s.ret2 with
              | none => rfl
              | some q0 => rw [hD q0 hret] at hreg; cases hreg
            refine ⟨by show s.spawned + 1 ≤ 1; omega, fun h => ⟨1000 + s.spawned, rfl⟩, ?_, ?_,
              fun h => ⟨1000 + s.spawned, rfl⟩, hF⟩
            · intro p hp
              cases hp
              rfl
            · intro p hp
              rw [hr2n] at hp
              cases hp
      · rw [if_neg h1]
        exact ⟨hA, hB, hC, hD, hE, hF⟩

theorem c9Inv_run (sched : List Bool) (s : CState) (h : c9Inv s) :
    c9Inv (runSched sched s) := by
  induction sched generalizing s with
  | nil => exact h
  | cons c rest ih => exact ih (threadStep s c) (c9Inv_step s c h)

/-- C9: for any interleaving of two concurrent GetOrCreate calls for the same
conversation key (any schedule of the atomic read-phase and lock-protected
critical-section steps, from any initial state where neither thread has
started and the registry slot is empty or holds a live or dead leftover), at
most one new subprocess is spawned, and when both calls have returned they
return the same process, which is the registered live process for the key
(the registry's single `Option` slot per key also means no reachable state
registers two live subprocesses for the key). -/
theorem c9_at_most_one_spawn (s0 : CState) (sched : List Bool)
    (h0 : validInit s0) :
    (runSched sched s0).spawned ≤ 1 ∧
    ((runSched sched s0).pc1 = 2 → (runSched sched s0).pc2 = 2 →
      ∃ p, (runSched sched s0).ret1 = some p ∧
        (runSched sched s0).ret2 = some p ∧
        (runSched sched s0).reg = some (p, PStatus.live)) := by
  obtain ⟨hsp, hp1, hp2, hr1, hr2⟩ := h0
  have hinv : c9Inv s0 := by
    refine ⟨by omega, ?_, ?_, ?_, ?_, ?_⟩
    · intro h1; omega
    · intro p hp; rw [hr1] at hp; cases hp
    · intro p hp; rw [hr2] at hp; cases hp
    · intro h2; omega
    · intro h2; omega
  obtain ⟨iA, iB, iC, iD, iE, iF⟩ := c9Inv_run sched s0 hinv
  refine ⟨iA, ?_⟩
  intro h1 h2
  obtain ⟨q1, hq1⟩ := iE h1
  obtain ⟨q2, hq2⟩ := iF h2
  have e1 := iC q1 hq1
  have e2 := iD q2 hq2
  have h12 : q1 = q2 := by rw [e1] at e2; simpa using e2
  refine ⟨q1, hq1, ?_, e1⟩
  rw [h12]
  exact hq2

/-- Witness for `c9_at_most_one_spawn`: from the empty initial state, the
fully alternating four-step schedule spawns once and both threads return the
single registered live process. -/
theorem c9_at_most_one_spawn_witness :
    (runSched [true, false, true, false] {}).spawned ≤ 1 ∧
    ((runSched [true, false, true, false] {}).pc1 = 2 →
      (runSched [true, false, true, false] {}).pc2 = 2 →
      ∃ p, (runSched [true, false, true, false] {}).ret1 = some p ∧
        (runSched [true, false, true, false] {}).ret2 = some p ∧
        (runSched [true, false, true, false] {}).reg = some (p, PStatus.live)) :=
  c9_at_most_one_spawn {} [true, false, true, false] ⟨rfl, rfl, rfl, rfl, rfl⟩

/-- Witness for `c1_completion_balance`: announcing tool `t1` and then
receiving the `result` event yields exactly one announcement and one
completion for `t1`. -/
theorem c1_completion_balance_witness :
    cntTR (readResponses [c4LineTool, { type := "result" }] {} {}).trace "t1" =
      cntTU (readResponses [c4LineTool, { type := "result" }] {} {}).trace "t1"
    ∧ cntTU (readResponses [c4LineTool, { type := "result" }] {} {}).trace "t1" = 1 :=
  ⟨c1_completion_balance [c4LineTool, { type := "result" }] {} {} "t1" (by decide)
    (Or.inl rfl), rfl⟩

/-- C4: on an `input_request` line, the code does NOT leave the referenced
tool pending: the generic tool-result check (which fires on any line with a
non-empty top-level `tool_use_id`, and an `input_request` line has one)
completes the referenced tool as a success before the `input_request` branch
runs.  Concretely, after announcing tool `t1` and then receiving
`input_request` for `t1`, the trace contains `OnToolResult(t1, success)`
before `OnInputRequest(t1)` and the pending set is empty on return — while
the claim (and the branch's own comment, "Complete any pending tools (except
the one waiting for input)") says `t1` must remain pending and uncompleted. -/
theorem c4_input_request_completes_referenced :
    (readResponses [c4LineTool, c4LineInput] {} {}).trace =
      [CB.toolUse "t1" "AskUserQuestion" [], CB.toolResult "t1" false, CB.inputRequest "t1"]
    ∧ (readResponses [c4LineTool, c4LineInput] {} {}).outcome = Outcome.suspended
    ∧ (readResponses [c4LineTool, c4LineInput] {} {}).state.pendingTools = [] :=
  ⟨rfl, rfl, rfl⟩

/-- C1 counterexample: a `tool_use` block whose id is empty is added to the
pending set (the code only requires a non-empty name), yet when the call ends
via an `input_request` that also lacks a `tool_use_id`, that identifier
receives no completion callback at all: the generic tool-result check skips
empty ids and the `input_request` loop skips ids equal to the request's
(empty) id.  The call ends by observing a terminal event, one announcement
was made for the identifier `""`, and zero completions were emitted. -/
theorem c1_counterexample :
    (readResponses [c1LineTool, c1LineInput] {} {}).outcome = Outcome.suspended
    ∧ cntTU (readResponses [c1LineTool, c1LineInput] {} {}).trace "" = 1
    ∧ cntTR (readResponses [c1LineTool, c1LineInput] {} {}).trace "" = 0
    ∧ (readResponses [c1LineTool, c1LineInput] {} {}).state.pendingTools = [""] :=
  ⟨rfl, rfl, rfl, rfl⟩

end Aria
